import Mathlib

/-!
A verification development for the `validate` schema-validation library
(`mod.js` of jvhellemond/validate): a shallow embedding of its value model,
rule records, fluent builder, matcher and self-check, with theorems settling
the specification's claims about them.
-/

/-
### JavaScript numbers

JS numbers are IEEE doubles.  The embedding models them as exact rationals
together with the non-finite values `NaN`, `Infinity` and `-Infinity`;
double rounding is outside the model (every numeric constant appearing in the
source and in the claims is exactly representable), and `-0` is identified
with `0`.
-/

inductive JNum where
  | nan
  | inf (pos : Bool)
  | fin (q : ℚ)
deriving DecidableEq

/-- JS `a < b` (and `a > b`, with the arguments flipped): every comparison
involving `NaN` is `false`. -/
def jnLt : JNum → JNum → Bool
  | .nan, _ => false
  | _, .nan => false
  | .inf true, _ => false
  | .inf false, .inf false => false
  | .inf false, _ => true
  | .fin _, .inf b => b
  | .fin a, .fin b => decide (a < b)

/-- JS strict equality `===` restricted to numbers (`NaN !== NaN`). -/
def jnEq : JNum → JNum → Bool
  | .fin a, .fin b => a == b
  | .inf a, .inf b => a == b
  | _, _ => false

/-- SameValueZero equality on numbers, the comparison used by
`Array.prototype.includes` (`NaN` matches `NaN`). -/
def jnSVZ : JNum → JNum → Bool
  | .nan, .nan => true
  | .fin a, .fin b => a == b
  | .inf a, .inf b => a == b
  | _, _ => false

/-- Truthiness of JS `value % 1`: `NaN % 1` and `±Infinity % 1` are `NaN`,
which is falsy; a finite value has a nonzero remainder iff it is not an
integer. -/
def modOneTruthy : JNum → Bool
  | .nan => false
  | .inf _ => false
  | .fin q => decide (q.den ≠ 1)

/-- JS template rendering of a number, for the numbers that occur in
violation messages.  Integral values print as decimal integers; the
non-double rationals of this model (never produced by the source's own
constants) fall back to a `num/den` form. -/
def jnToString : JNum → String
  | .nan => "NaN"
  | .inf true => "Infinity"
  | .inf false => "-Infinity"
  | .fin q => if q.den = 1 then toString q.num else toString q.num ++ "/" ++ toString q.den

/-
### Regular-expression objects

A JS `RegExp` is an object, compared by reference (`==` between two regexp
objects is reference equality); the embedding gives every regexp literal an
identity tag `id`.  `test` is the regexp's full matching function and
`src`/`flags` its textual form, used when a regexp is rendered into a string.
-/

structure JRegExp where
  id : Nat
  src : String
  flags : String
  test : String → Bool

def regExpDisplay (p : JRegExp) : String := "/" ++ p.src ++ "/" ++ p.flags

def isHexLower (c : Char) : Bool := c.isDigit || ('a' ≤ c && c ≤ 'f')

def isAsciiLetter (c : Char) : Bool := c.isLower || c.isUpper

/-- Split a text at every occurrence of a separator character (the groups do
not contain the separator; n separators yield n+1 groups). -/
def splitOnChar (sep : Char) : List Char → List (List Char)
  | [] => [[]]
  | x :: xs =>
    match splitOnChar sep xs with
    | [] => [[]]
    | g :: gs => if x == sep then [] :: g :: gs else (x :: g) :: gs

/-- The regex for uuid: five lowercase-hex groups of sizes 8, 4, 4, 4 and 12,
separated by single hyphens. -/
def uuidTest (s : String) : Bool :=
  match splitOnChar '-' s.data with
  | [a, b, c, d, e] =>
    a.length == 8 && b.length == 4 && c.length == 4 && d.length == 4 && e.length == 12
      && (a ++ b ++ c ++ d ++ e).all isHexLower
  | _ => false

/-- The regex for slug (case-insensitive): nonempty alphanumeric runs
separated by single hyphens, neither starting nor ending with a hyphen. -/
def slugTest (s : String) : Bool :=
  (splitOnChar '-' s.data).all (fun part => !part.isEmpty && part.all (fun c => c.isAlphanum))

/-- The special characters admitted by the email regex's local part, besides
letters and digits. -/
def emailLocalChars : List Char :=
  ['_', '!', '#', '$', '%', '&', '\x27', '*', '+', '/', '=', '?', '\x60',
   '\x7b', '|', '\x7d', '~', '^', '.', '-']

def emailDomainChar (c : Char) : Bool := c.isAlphanum || c == '.' || c == '-'

/-- The regex for email (case-insensitive): a nonempty local part, `@`, a
nonempty domain over `[a-z0-9.-]`, a dot, and a top-level domain of at least
two letters.  Backtracking resolves the final dot to the one immediately
before the trailing letter run. -/
def emailTest (s : String) : Bool :=
  match splitOnChar '@' s.data with
  | [l, r] =>
    !l.isEmpty && l.all (fun c => c.isAlphanum || emailLocalChars.contains c)
      && r.all emailDomainChar
      && (let tl := (r.reverse.takeWhile isAsciiLetter).length
          decide (2 ≤ tl) && ((r.reverse.drop tl).head? == some '.')
            && decide (tl + 2 ≤ r.length))
  | _ => false

/-- The regex for social (case-insensitive): one to ten letters, a colon, and
one to fifty characters, none of which may be a line terminator (the regex's
`.` excludes them). -/
def socialTest (s : String) : Bool :=
  let cs := s.data
  let pre := cs.takeWhile isAsciiLetter
  let rest := cs.drop (pre.length + 1)
  decide (1 ≤ pre.length) && decide (pre.length ≤ 10) && (cs.get? pre.length == some ':')
    && decide (1 ≤ rest.length) && decide (rest.length ≤ 50)
    && rest.all (fun c => !(c == '\n' || c == '\r' || c == ' ' || c == ' '))

/-- The regex for countryCode: exactly two lowercase letters. -/
def countryCodeTest (s : String) : Bool :=
  s.data.length == 2 && s.data.all (fun c => c.isLower)

/-- The `uuid` entry of the pattern table. -/
def patternsUuid : JRegExp :=
  ⟨0, "^[a-f0-9]\x7b8\x7d-([a-f0-9]\x7b4\x7d-)\x7b3\x7d[a-f0-9]\x7b12\x7d$", "", uuidTest⟩

/-- The `slug` entry of the pattern table. -/
def patternsSlug : JRegExp := ⟨1, "^[a-z0-9]+(?:-[a-z0-9]+)*$", "i", slugTest⟩

/-- The `email` entry of the pattern table. -/
def patternsEmail : JRegExp :=
  ⟨2, "^[a-z0-9_!#$%&\x27*+\\/=?\x60\x7b|\x7d~^.-]+@[a-z0-9.-]+\\.[a-z]\x7b2,\x7d$",
   "i", emailTest⟩

/-- The `social` entry of the pattern table. -/
def patternsSocial : JRegExp := ⟨3, "^[a-z]\x7b1,10\x7d:.\x7b1,50\x7d$", "i", socialTest⟩

/-- The `countryCode` entry of the pattern table. -/
def patternsCountryCode : JRegExp := ⟨4, "^[a-z]\x7b2\x7d$", "", countryCodeTest⟩

/-- The exported named-pattern table.  Identity tags 0 to 4 are reserved for
the table's own regexp literals; a regexp constructed anywhere else carries a
different tag, so that tag equality models reference equality. -/
def patterns : List (String × JRegExp) :=
  [("uuid", patternsUuid), ("slug", patternsSlug), ("email", patternsEmail),
   ("social", patternsSocial), ("countryCode", patternsCountryCode)]

/-
### JavaScript values

Plain-object entries are kept as an association list in property order
(claims only exercise objects whose keys are already in JS enumeration
order and duplicate-free).  String lengths count characters (the claims are
ASCII-only, where this agrees with JS UTF-16 code-unit counts).  The
reference identity of distinct object/array/date/function values is not
modeled: two such values compare unequal, as any two separately constructed
ones do in JS.
-/

inductive Value where
  | undefined
  | null
  | str (s : String)
  | num (n : JNum)
  | date (t : JNum)
  | bool (b : Bool)
  | regexp (r : JRegExp)
  | arr (items : List Value)
  | obj (entries : List (String × Value))
  | func

namespace JSVal

/-- `Object(value) instanceof String`. -/
def isString : Value → Bool
  | .str _ => true
  | _ => false

/-- `Object(value) instanceof Number`. -/
def isNumber : Value → Bool
  | .num _ => true
  | _ => false

/-- `Object(value) instanceof Date`. -/
def isDate : Value → Bool
  | .date _ => true
  | _ => false

/-- `Object(value) instanceof Boolean`. -/
def isBoolean : Value → Bool
  | .bool _ => true
  | _ => false

/-- `Object(value) instanceof RegExp`. -/
def isRegExp : Value → Bool
  | .regexp _ => true
  | _ => false

/-- `Array.isArray(value)`. -/
def isArray : Value → Bool
  | .arr _ => true
  | _ => false

/-- `value?.constructor === Object`: a plain object. -/
def isObject : Value → Bool
  | .obj _ => true
  | _ => false

def isUndefined : Value → Bool
  | .undefined => true
  | _ => false

def isNull : Value → Bool
  | .null => true
  | _ => false

end JSVal

/-- SameValueZero, the equality used by `Array.prototype.includes`:
primitives by value, objects by reference (distinct constructions compare
unequal in this model; regexps carry their identity tag). -/
def sameValueZero : Value → Value → Bool
  | .undefined, .undefined => true
  | .null, .null => true
  | .str a, .str b => a == b
  | .num a, .num b => jnSVZ a b
  | .bool a, .bool b => a == b
  | .regexp a, .regexp b => a.id == b.id
  | _, _ => false

/-- `value[key]` on a plain object: the named own property, or `undefined`
(prototype-chain lookups are not modeled). -/
def objGet (entries : List (String × Value)) (k : String) : Value :=
  match entries with
  | [] => .undefined
  | e :: rest => if e.1 == k then e.2 else objGet rest k

/-- `value[key]` on an array: the element at a canonical numeric index, else
`undefined` (the `length` own property and prototype methods are not
modeled; no claim reads them). -/
def arrGet (items : List Value) (k : String) : Value :=
  match k.toNat? with
  | some n => if toString n == k then items.getD n .undefined else .undefined
  | none => .undefined

/-- JS template rendering `${v}` of the values that can reach a violation
message.  Dates render locale-dependently in JS; the model uses a canonical
placeholder (no claim exercises a date, array or function rendering). -/
def displayValue : Value → String
  | .undefined => "undefined"
  | .null => "null"
  | .str s => s
  | .num n => jnToString n
  | .date t => "[Date " ++ jnToString t ++ "]"
  | .bool b => if b then "true" else "false"
  | .regexp p => regExpDisplay p
  | .arr _ => "[Array]"
  | .obj _ => "[object Object]"
  | .func => "[Function]"

/-
### Rule records

A schema instance's `rules` record.  The six keys of the field initializer
`{required: true, null: false, coerce: [], values: [], union: [], type: "string"}`
are present on every record; the remaining keys (`length`, `pattern`,
`integer`, `range`, `size`, `props`) exist only once a builder call has set
them, which `Option` models (`none` = key absent).  `props` is the record
built by the private object/array constructor: its enumerable entries map
member names to the member schema's rule record — or to `undefined` when the
supplied member was not a schema instance, which `Option` models — and its
two non-enumerable slots hold the key rule and the value rule.
-/

mutual
inductive Rules where
  | mk (required : Bool) (null : Bool) (coerce : List (Value → Value))
       (values : List Value) (union : List Rules) (type : String)
       (length : Option (Sum JNum (JNum × JNum)))
       (pattern : Option JRegExp)
       (integer : Option Bool)
       (range : Option (Value × Value))
       (size : Option (Sum JNum (JNum × JNum)))
       (props : Option Props)
inductive Props where
  | mk (entries : List (String × Option Rules)) (keys : Option Rules) (vals : Option Rules)
end

def Rules.required : Rules → Bool
  | .mk a _ _ _ _ _ _ _ _ _ _ _ => a

def Rules.null : Rules → Bool
  | .mk _ a _ _ _ _ _ _ _ _ _ _ => a

def Rules.coerce : Rules → List (Value → Value)
  | .mk _ _ a _ _ _ _ _ _ _ _ _ => a

def Rules.values : Rules → List Value
  | .mk _ _ _ a _ _ _ _ _ _ _ _ => a

def Rules.union : Rules → List Rules
  | .mk _ _ _ _ a _ _ _ _ _ _ _ => a

def Rules.type : Rules → String
  | .mk _ _ _ _ _ a _ _ _ _ _ _ => a

def Rules.length : Rules → Option (Sum JNum (JNum × JNum))
  | .mk _ _ _ _ _ _ a _ _ _ _ _ => a

def Rules.pattern : Rules → Option JRegExp
  | .mk _ _ _ _ _ _ _ a _ _ _ _ => a

def Rules.integer : Rules → Option Bool
  | .mk _ _ _ _ _ _ _ _ a _ _ _ => a

def Rules.range : Rules → Option (Value × Value)
  | .mk _ _ _ _ _ _ _ _ _ a _ _ => a

def Rules.size : Rules → Option (Sum JNum (JNum × JNum))
  | .mk _ _ _ _ _ _ _ _ _ _ a _ => a

def Rules.props : Rules → Option Props
  | .mk _ _ _ _ _ _ _ _ _ _ _ a => a

def Props.entries : Props → List (String × Option Rules)
  | .mk a _ _ => a

def Props.keys : Props → Option Rules
  | .mk _ a _ => a

def Props.vals : Props → Option Rules
  | .mk _ _ a => a

/-- The all-defaults base record of a fresh `new Schema()`. -/
def defaultRules : Rules :=
  .mk true false [] [] [] "string" none none none none none none

/-- An argument to `setRules`: the partial record a builder call spreads over
the receiver's rules (`some` = the key is present in the patch). -/
structure RulesPatch where
  required : Option Bool
  null : Option Bool
  coerce : Option (List (Value → Value))
  values : Option (List Value)
  union : Option (List Rules)
  type : Option String
  length : Option (Sum JNum (JNum × JNum))
  pattern : Option JRegExp
  integer : Option Bool
  range : Option (Value × Value)
  size : Option (Sum JNum (JNum × JNum))
  props : Option Props

def RulesPatch.empty : RulesPatch :=
  ⟨none, none, none, none, none, none, none, none, none, none, none, none⟩

/-- JS spread for one optional key: the right-hand record's key wins when it
is present. -/
def ovr (p o : Option α) : Option α :=
  match p with
  | some x => some x
  | none => o

/-- `{...this.rules, ...rules}`: the rule-record merge performed by
`setRules`. -/
def mergePatch : Rules → RulesPatch → Rules
  | .mk a b c d e t l pa i ra s pr, p =>
    .mk (p.required.getD a) (p.null.getD b) (p.coerce.getD c) (p.values.getD d)
      (p.union.getD e) (p.type.getD t) (ovr p.length l) (ovr p.pattern pa)
      (ovr p.integer i) (ovr p.range ra) (ovr p.size s) (ovr p.props pr)

/-- `{...rules, ...rules_, union: []}`: the merge the matcher performs for
each union alternative.  The alternative is a complete schema record, so its
six base keys always win; its optional keys win when present; `union` is
cleared to stop the recursion. -/
def mergeForUnion : Rules → Rules → Rules
  | .mk _ _ _ _ _ _ l pa i ra s pr, .mk a2 b2 c2 d2 _ t2 l2 pa2 i2 ra2 s2 pr2 =>
    .mk a2 b2 c2 d2 [] t2 (ovr l2 l) (ovr pa2 pa) (ovr i2 i) (ovr ra2 ra)
      (ovr s2 s) (ovr pr2 pr)

/-
### The schema builder

Each fluent builder call routes through `setRules`, which replaces the
instance's rule record by the spread `{...this.rules, ...rules}` and returns
the same instance (`return this`).  The combinators below are the pure
rule-record transformations each call performs; `Schema.setRules` further
down models the instance-level mutation itself, for the aliasing analysis.
A static shorthand such as `Schema.isString` is the same transformation
applied to the fresh all-defaults record of `new Schema()` (`Schema.base`).
-/

namespace Schema

/-- The rule record of a freshly constructed schema instance. -/
def base : Rules := defaultRules

def isRequired (r : Rules) : Rules := mergePatch r { RulesPatch.empty with required := some true }

def isOptional (r : Rules) : Rules := mergePatch r { RulesPatch.empty with required := some false }

def isNotNull (r : Rules) : Rules := mergePatch r { RulesPatch.empty with null := some false }

def mayBeNull (r : Rules) : Rules := mergePatch r { RulesPatch.empty with null := some true }

def coerce (r : Rules) (coercers : List (Value → Value)) : Rules :=
  mergePatch r { RulesPatch.empty with coerce := some coercers }

def is (r : Rules) (value : Value) : Rules :=
  mergePatch r { RulesPatch.empty with values := some [value] }

def isAnyOf (r : Rules) (values : List Value) : Rules :=
  mergePatch r { RulesPatch.empty with values := some values }

/-- `isEither(...schemas)` stores the alternatives' rule records verbatim. -/
def isEither (r : Rules) (schemas : List Rules) : Rules :=
  mergePatch r { RulesPatch.empty with union := some schemas }

def isString (r : Rules) : Rules := mergePatch r { RulesPatch.empty with type := some "string" }

def isUUID (r : Rules) : Rules :=
  mergePatch r
    { RulesPatch.empty with
      type := some "string"
      pattern := some patternsUuid }

def isSlug (r : Rules) : Rules :=
  mergePatch r
    { RulesPatch.empty with
      type := some "string"
      pattern := some patternsSlug
      length := some (.inr (.fin 0, .fin 20)) }

def isEmail (r : Rules) : Rules :=
  mergePatch r
    { RulesPatch.empty with
      type := some "string"
      pattern := some patternsEmail
      length := some (.inr (.fin 0, .fin 100)) }

def hasLength (r : Rules) : Rules :=
  mergePatch r { RulesPatch.empty with length := some (.inr (.fin 1, .inf true)) }

def lengthIsAtLeast (r : Rules) (mn : JNum) : Rules :=
  mergePatch r { RulesPatch.empty with length := some (.inr (mn, .inf true)) }

def lengthIsAtMost (r : Rules) (mx : JNum) : Rules :=
  mergePatch r { RulesPatch.empty with length := some (.inr (.inf false, mx)) }

def lengthIsBetween (r : Rules) (mn mx : JNum) : Rules :=
  mergePatch r { RulesPatch.empty with length := some (.inr (mn, mx)) }

def lengthIs (r : Rules) (n : JNum) : Rules :=
  mergePatch r { RulesPatch.empty with length := some (.inl n) }

/-- The builder's `matches(pattern)` (named `matchesPattern` here because
`matches` is reserved in Lean). -/
def matchesPattern (r : Rules) (p : JRegExp) : Rules :=
  mergePatch r { RulesPatch.empty with pattern := some p }

def isNumber (r : Rules) : Rules :=
  mergePatch r
    { RulesPatch.empty with
      type := some "number"
      integer := some false }

def isInteger (r : Rules) : Rules :=
  mergePatch r
    { RulesPatch.empty with
      type := some "number"
      integer := some true }

def isFloat (r : Rules) : Rules := isNumber r

def isDate (r : Rules) : Rules := mergePatch r { RulesPatch.empty with type := some "date" }

def isAtLeast (r : Rules) (mn : Value) : Rules :=
  mergePatch r { RulesPatch.empty with range := some (mn, .num (.inf true)) }

def isAtMost (r : Rules) (mx : Value) : Rules :=
  mergePatch r { RulesPatch.empty with range := some (.num (.inf false), mx) }

def isBetween (r : Rules) (mn mx : Value) : Rules :=
  mergePatch r { RulesPatch.empty with range := some (mn, mx) }

def isNotBefore (r : Rules) (mn : Value) : Rules := isAtLeast r mn

def isNotAfter (r : Rules) (mx : Value) : Rules := isAtMost r mx

def isBoolean (r : Rules) : Rules := mergePatch r { RulesPatch.empty with type := some "boolean" }

def isRegExp (r : Rules) : Rules := mergePatch r { RulesPatch.empty with type := some "regexp" }

/-- The private `#isObject(keys, values, entries, type)` helper: installs a
`props` record whose enumerable entries are the members' rule records (or
`undefined` for a member that is not a schema instance) and whose two
non-enumerable, non-writable slots hold the key rule and the value rule. -/
def hashIsObject (r : Rules) (keys vals : Option Rules)
    (entries : List (String × Option Rules)) (type : String) : Rules :=
  mergePatch r
    { RulesPatch.empty with
      type := some type
      props := some (.mk entries keys vals) }

/-- `isObject()` with no arguments. -/
def isObject0 (r : Rules) : Rules := hashIsObject r none none [] "object"

/-- `isObject(schema)` with one schema-instance argument: a homogeneous
object whose every property value obeys the schema. -/
def isObjectSchema (r : Rules) (vr : Rules) : Rules :=
  hashIsObject r none (some vr) [] "object"

/-- `isObject(entries)` with one plain-mapping argument: named members.  The
list already carries each member's `schema.rules`, with `none` for a member
that was not a schema instance (whose `.rules` is `undefined`). -/
def isObjectMembers (r : Rules) (entries : List (String × Option Rules)) : Rules :=
  hashIsObject r none none entries "object"

/-- `isObject(keys, values, entries)` with explicit slots. -/
def isObjectFull (r : Rules) (keys vals : Option Rules)
    (entries : List (String × Option Rules)) : Rules :=
  hashIsObject r keys vals entries "object"

/-- `isArray()` with no arguments. -/
def isArray0 (r : Rules) : Rules := hashIsObject r none none [] "array"

/-- `isArray(schema)` with one schema-instance argument. -/
def isArraySchema (r : Rules) (vr : Rules) : Rules :=
  hashIsObject r none (some vr) [] "array"

/-- `isArray(entries)` with one plain-mapping argument. -/
def isArrayMembers (r : Rules) (entries : List (String × Option Rules)) : Rules :=
  hashIsObject r none none entries "array"

/-- `isArray(values, entries)` with explicit slots (arrays have no key
rule). -/
def isArrayFull (r : Rules) (vals : Option Rules)
    (entries : List (String × Option Rules)) : Rules :=
  hashIsObject r none vals entries "array"

def hasExactly (r : Rules) (n : JNum) : Rules :=
  mergePatch r { RulesPatch.empty with size := some (.inl n) }

def hasAtLeast (r : Rules) (mn : JNum) : Rules :=
  mergePatch r { RulesPatch.empty with size := some (.inr (mn, .inf true)) }

def hasAtMost (r : Rules) (mx : JNum) : Rules :=
  mergePatch r { RulesPatch.empty with size := some (.inr (.inf false, mx)) }

def hasBetween (r : Rules) (mn mx : JNum) : Rules :=
  mergePatch r { RulesPatch.empty with size := some (.inr (mn, mx)) }

/-
### Instance-level `setRules`

`setRules(rules) { this.rules = {...this.rules, ...rules}; return this; }`

Schema instances are mutable objects; the heap below maps instance
addresses to their current rule records.  `setRules` stores the merged
record back into the receiver's own slot and returns the receiver's address.
-/

/-- The instance method `setRules`, over a heap of schema instances: the
receiver's slot is overwritten with the merged record and the receiver
itself is returned. -/
def setRules (h : List Rules) (a : Nat) (p : RulesPatch) : List Rules × Nat :=
  (h.set a (mergePatch (h.getD a defaultRules) p), a)

end Schema

/-
### The matcher

`validate(value, rules = this.rules, path = [])` returns a pair
`[valid, messages]`; each message is a pair of the mapped path (an array of
strings, each path entry rewritten by
`key.replace(/\.([0-9]+)(?=\.|$)/g, "[$1]")`) and a message string.  The
computation is embedded in `Except`: `typeError` models an uncaught JS
`TypeError` (the call throws), and `outOfFuel` models the recursion budget of
the embedding running out — the source recurses without a guard, so a fuel
parameter makes the embedded function total.
-/

inductive VErr where
  | typeError
  | outOfFuel
deriving DecidableEq

/-- One entry of the matcher's `path` argument: object member names are
pushed as strings, array item positions as numbers. -/
inductive Seg where
  | str (s : String)
  | num (i : Nat)
deriving DecidableEq

/-- `[valid, messages]`. -/
abbrev VResult := Bool × List (List String × String)

/-- The longest digit run at the head of the text, and the rest. -/
def takeDigits : List Char → List Char × List Char
  | [] => ([], [])
  | c :: cs =>
    if c.isDigit then
      let p := takeDigits cs
      (c :: p.1, p.2)
    else ([], c :: cs)

theorem takeDigits_snd_length : ∀ cs : List Char, (takeDigits cs).2.length ≤ cs.length
  | [] => by simp [takeDigits]
  | c :: cs => by
    by_cases h : c.isDigit <;> simp [takeDigits, h]
    exact le_trans (takeDigits_snd_length cs) (Nat.le_succ _)

/-- The global replace `/\.([0-9]+)(?=\.|$)/g → "[$1]"`: a dot followed by a
digit run becomes the bracketed run when the run is followed by another dot
or the end of the key; the lookahead is not consumed, so scanning resumes at
it.  The scan consumes at least one character per step, so a step budget of
the text's length suffices; the budget makes the recursion structural. -/
def fixKeyGo : Nat → List Char → List Char
  | 0, l => l
  | _ + 1, [] => []
  | f + 1, c :: rest =>
    if c = '.' then
      let p := takeDigits rest
      if !p.1.isEmpty && (p.2.isEmpty || p.2.head? == some '.') then
        '[' :: (p.1 ++ ']' :: fixKeyGo f p.2)
      else '.' :: fixKeyGo f rest
    else c :: fixKeyGo f rest

/-- `key.replace(/\.([0-9]+)(?=\.|$)/g, "[$1]")`. -/
def fixKey (s : String) : String := String.mk (fixKeyGo s.data.length s.data)

/-- One step of `path.map(key => key.replace(...))`: a string path entry is
rewritten; a numeric path entry (pushed for array items) has no `replace`
method, so the call throws a `TypeError`. -/
def renderSeg : Seg → Except VErr String
  | .str s => .ok (fixKey s)
  | .num _ => .error .typeError

/-- `list.map(f)` over a callback that can throw, sequenced left to right
with the first exception propagating — JS `Array.prototype.map` semantics
under exceptions. -/
def mapEx (g : α → Except VErr β) : List α → Except VErr (List β)
  | [] => .ok []
  | a :: l => (g a).bind (fun b => (mapEx g l).bind (fun bs => .ok (b :: bs)))

/-- The matcher's local `error` helper: a single violation carrying the
mapped path. -/
def errorResult (path : List Seg) (msg : String) : Except VErr VResult :=
  (mapEx renderSeg path).bind (fun keys => .ok (false, [(keys, msg)]))

/-- The union rule's reduce: `or` the validities, concatenate the messages,
starting from `[false, []]`. -/
def unionFold (rs : List VResult) : VResult :=
  rs.foldl (fun a b => (a.1 || b.1, a.2 ++ b.2)) (false, [])

/-- The structural rules' reduce: `and` the validities, concatenate the
messages, starting from `[true, []]`. -/
def foldResults (rs : List VResult) : VResult :=
  rs.foldl (fun a b => (a.1 && b.1, a.2 ++ b.2)) (true, [])

/-- After the structural reduce the node returns `[false, messages]` when
invalid and otherwise falls through the switch to `[true, []]`, dropping any
collected messages. -/
def finishNode (rs : List VResult) : VResult :=
  let f := foldResults rs
  if f.1 then (true, []) else (false, f.2)

/-- The JS `in` operator on a `props` record: its enumerable member entries
plus the two non-enumerable slots, which the object/array constructor always
defines.  (Prototype-chain property names are not modeled; no claim uses
them.) -/
def keyInProps (entries : List (String × Option Rules)) (k : String) : Bool :=
  entries.any (fun m => m.1 == k) || k == "__keys__" || k == "__values__"

/-- The string-pattern rule.  When the test fails, the message's pattern name
is looked up in the pattern table by reference; for a pattern that is not in
the table, `find` yields `undefined` and the destructuring `const [key] = …`
throws a `TypeError`. -/
def checkStringPattern (path : List Seg) (rules : Rules) (s : String) :
    Except VErr VResult :=
  match rules.pattern with
  | some p =>
    if !p.test s then
      match patterns.find? (fun e => e.2.id == p.id) with
      | none => .error .typeError
      | some e =>
        errorResult path
          ("does not match the pattern \x60"
            ++ (if e.1.isEmpty then regExpDisplay p else e.1) ++ "\x60.")
    else .ok (true, [])
  | none => .ok (true, [])

/-- The string length rules, then the pattern rule. -/
def checkString (path : List Seg) (rules : Rules) (s : String) :
    Except VErr VResult :=
  match rules.length with
  | some (.inl n) =>
    if !jnEq (.fin s.length) n then
      errorResult path ("length is not " ++ jnToString n ++ ".")
    else checkStringPattern path rules s
  | some (.inr (mn, mx)) =>
    if jnLt (.fin s.length) mn then
      errorResult path ("is shorter than " ++ jnToString mn ++ " characters.")
    else if jnLt mx (.fin s.length) then
      errorResult path ("is longer than " ++ jnToString mx ++ " characters.")
    else checkStringPattern path rules s
  | none => checkStringPattern path rules s

/-- The integer rule and the numeric range rule (a range bound takes part
only when it is itself a number; the builder's unbounded ends are `±Infinity`,
which are numbers that no finite value lies beyond). -/
def checkNumber (path : List Seg) (rules : Rules) (n : JNum) :
    Except VErr VResult :=
  if rules.integer.getD false && modOneTruthy n then
    errorResult path "is not an integer"
  else
    match rules.range with
    | some (mn, mx) =>
      if (match mn with | .num m => jnLt n m | _ => false) then
        errorResult path ("is less than " ++ displayValue mn ++ ".")
      else if (match mx with | .num m => jnLt m n | _ => false) then
        errorResult path ("is greater than " ++ displayValue mx ++ ".")
      else .ok (true, [])
    | none => .ok (true, [])

/-- The date range rule (a bound takes part only when it is itself a date;
comparison is by time value). -/
def checkDate (path : List Seg) (rules : Rules) (t : JNum) :
    Except VErr VResult :=
  match rules.range with
  | some (mn, mx) =>
    if (match mn with | .date m => jnLt t m | _ => false) then
      errorResult path ("is before " ++ displayValue mn ++ ".")
    else if (match mx with | .date m => jnLt m t | _ => false) then
      errorResult path ("is after " ++ displayValue mx ++ ".")
    else .ok (true, [])
  | none => .ok (true, [])

/-- The object structural rules (`rules.props` present): the
unspecified-property check, then the named members, then the unnamed keys
against the key rule, then the unnamed values against the value rule.  A
named member whose entry is `undefined` (a member that was not a schema
instance) is validated against the *defaulted* rules `this.rules` of the
schema the call started on — `self` here. -/
def checkObject (rec : Value → Rules → List Seg → Except VErr VResult)
    (self : Rules) (p : Props) (oe : List (String × Value)) (path : List Seg) :
    Except VErr VResult :=
  if (p.keys.isNone && p.vals.isNone)
      && !(oe.all (fun e => p.entries.any (fun m => m.1 == e.1))) then
    errorResult path "contains unspecified properties."
  else
    (mapEx (fun (m : String × Option Rules) =>
        rec (objGet oe m.1) (m.2.getD self) (path ++ [Seg.str m.1]))
        p.entries).bind (fun named =>
      (match p.keys with
        | some kr =>
          mapEx (fun (e : String × Value) => rec (.str e.1) kr (path ++ [Seg.str (e.1 ++ "*")]))
            (oe.filter (fun e => !keyInProps p.entries e.1))
        | none => .ok []).bind (fun unkeys =>
        (match p.vals with
          | some vr =>
            mapEx (fun (e : String × Value) => rec e.2 vr (path ++ [Seg.str e.1]))
              (oe.filter (fun e => !keyInProps p.entries e.1))
          | none => .ok []).bind (fun unvals =>
          .ok (finishNode (named ++ unkeys ++ unvals)))))

/-- The array structural rules (`rules.props` present): the
unspecified-items check (comparing the array length with the *count* of
named entries), then the named items, then the remaining items against the
value rule at their numeric positions. -/
def checkArray (rec : Value → Rules → List Seg → Except VErr VResult)
    (self : Rules) (p : Props) (items : List Value) (path : List Seg) :
    Except VErr VResult :=
  if p.vals.isNone && decide (p.entries.length < items.length) then
    errorResult path "contains unspecified items."
  else
    (mapEx (fun (m : String × Option Rules) =>
        rec (arrGet items m.1) (m.2.getD self) (path ++ [Seg.str m.1]))
        p.entries).bind (fun named =>
      (match p.vals with
        | some vr =>
          (mapEx (fun (iv : Nat × Value) =>
            if !keyInProps p.entries (toString iv.1) then
              (rec iv.2 vr (path ++ [Seg.num iv.1])).bind (fun res => .ok (some res))
            else .ok none) items.enum).bind (fun opts =>
            .ok (opts.filterMap id))
        | none => .ok []).bind (fun extra =>
        .ok (finishNode (named ++ extra))))

/-- The whole `case "object"` arm once the value is a plain object: the size
rules against the property count, then the structural rules when `props` is
present. -/
def checkObjectKind (rec : Value → Rules → List Seg → Except VErr VResult)
    (self : Rules) (rules : Rules) (oe : List (String × Value)) (path : List Seg) :
    Except VErr VResult :=
  match rules.size with
  | some (.inl n) =>
    if !jnEq (.fin oe.length) n then
      errorResult path ("does not have exactly " ++ jnToString n ++ " "
        ++ (if jnEq n (.fin 1) then "property" else "properties") ++ ".")
    else
      match rules.props with
      | some p => checkObject rec self p oe path
      | none => .ok (true, [])
  | some (.inr (mn, mx)) =>
    if jnLt (.fin oe.length) mn then
      errorResult path ("has fewer than " ++ jnToString mn ++ " properties.")
    else if jnLt mx (.fin oe.length) then
      errorResult path ("has more than " ++ jnToString mx ++ " properties.")
    else
      match rules.props with
      | some p => checkObject rec self p oe path
      | none => .ok (true, [])
  | none =>
    match rules.props with
    | some p => checkObject rec self p oe path
    | none => .ok (true, [])

/-- The whole `case "array"` arm once the value is an array: the size rules
against the element count, then the structural rules when `props` is
present. -/
def checkArrayKind (rec : Value → Rules → List Seg → Except VErr VResult)
    (self : Rules) (rules : Rules) (items : List Value) (path : List Seg) :
    Except VErr VResult :=
  match rules.size with
  | some (.inl n) =>
    if !jnEq (.fin items.length) n then
      errorResult path ("does not have exactly " ++ jnToString n ++ " "
        ++ (if jnEq n (.fin 1) then "item" else "items") ++ ".")
    else
      match rules.props with
      | some p => checkArray rec self p items path
      | none => .ok (true, [])
  | some (.inr (mn, mx)) =>
    if jnLt (.fin items.length) mn then
      errorResult path ("has fewer than " ++ jnToString mn ++ " items.")
    else if jnLt mx (.fin items.length) then
      errorResult path ("has more than " ++ jnToString mx ++ " items.")
    else
      match rules.props with
      | some p => checkArray rec self p items path
      | none => .ok (true, [])
  | none =>
    match rules.props with
    | some p => checkArray rec self p items path
    | none => .ok (true, [])

/-- Step 3, coercion: `value = rules.coerce.reduce((v, c) => c(v), value)`
(the source's emptiness guard changes nothing: folding no coercers returns
the value). -/
def coerceValue (rules : Rules) (value : Value) : Value :=
  rules.coerce.foldl (fun v c => c v) value

/-- The string payload of a value, after `isString(value)` has succeeded
(the default is never reached). -/
def Value.asString : Value → String
  | .str s => s
  | _ => ""

/-- The numeric payload of a value, after `isNumber(value)` has succeeded. -/
def Value.asNumber : Value → JNum
  | .num n => n
  | _ => .nan

/-- The time value of a date, after `isDate(value)` has succeeded. -/
def Value.asDate : Value → JNum
  | .date t => t
  | _ => .nan

/-- The entries of a plain object, after `isObject(value)` has succeeded. -/
def Value.asObjEntries : Value → List (String × Value)
  | .obj oe => oe
  | _ => []

/-- The items of an array, after `isArray(value)` has succeeded. -/
def Value.asArrItems : Value → List Value
  | .arr items => items
  | _ => []

/-- The kind switch (step 6): each case starts with its type guard
(`if(!isString(value)) return error(...)` and so on), and a `kind` matching
no case falls through the switch and returns valid. -/
def validateKind (rec : Value → Rules → List Seg → Except VErr VResult)
    (self : Rules) (value : Value) (rules : Rules) (path : List Seg) :
    Except VErr VResult :=
  if rules.type == "string" then
    if !JSVal.isString value then errorResult path "is not a string."
    else checkString path rules value.asString
  else if rules.type == "number" then
    if !JSVal.isNumber value then errorResult path "is not a number"
    else checkNumber path rules value.asNumber
  else if rules.type == "date" then
    if !JSVal.isDate value then errorResult path "is not a date."
    else checkDate path rules value.asDate
  else if rules.type == "boolean" then
    if !JSVal.isBoolean value then errorResult path "is not a boolean."
    else .ok (true, [])
  else if rules.type == "regexp" then
    if !JSVal.isRegExp value then errorResult path "is not a regular expression."
    else .ok (true, [])
  else if rules.type == "object" then
    if !JSVal.isObject value then errorResult path "is not an object."
    else checkObjectKind rec self rules value.asObjEntries path
  else if rules.type == "array" then
    if !JSVal.isArray value then errorResult path "is not an array."
    else checkArrayKind rec self rules value.asArrItems path
  else .ok (true, [])

/-- One evaluation step of the matcher, with `rec` standing for the
recursive call (at one less fuel).  The steps mirror the source in order:
presence, nullability, coercion, literal membership, union, then the kind
switch. -/
def validateBody (rec : Value → Rules → List Seg → Except VErr VResult)
    (self : Rules) (value : Value) (rules : Rules) (path : List Seg) :
    Except VErr VResult :=
  if JSVal.isUndefined value then
    if rules.required then errorResult path "is undefined." else .ok (true, [])
  else if JSVal.isNull value then
    if !rules.null then errorResult path "is null." else .ok (true, [])
  else
    if !rules.values.isEmpty then
      if !(rules.values.any (fun w => sameValueZero w (coerceValue rules value))) then
        errorResult path "does not equal any required value."
      else .ok (true, [])
    else if !rules.union.isEmpty then
      (mapEx (fun u => rec (coerceValue rules value) (mergeForUnion rules u) path)
        rules.union).bind (fun results => .ok (unionFold results))
    else validateKind rec self (coerceValue rules value) rules path

/-- The matcher.  `self` is the schema instance the call started on, whose
rules are the default for a member entry that is `undefined`; `fuel` bounds
the recursion depth (the source has no such guard and can recurse forever on
cyclic rule records). -/
def Schema.validate (self : Rules) : Nat → Value → Rules → List Seg → Except VErr VResult
  | 0, _, _, _ => .error .outOfFuel
  | fuel + 1, value, rules, path =>
    validateBody (Schema.validate self fuel) self value rules path

/-- The public entry point `schema.validate(value)`: rules default to the
instance's own record and the path starts empty. -/
def Schema.validateTop (r : Rules) (value : Value) (fuel : Nat) : Except VErr VResult :=
  Schema.validate r fuel value r []

/-
### The self-check

`check()` validates the instance's own rule record, as an ordinary value,
against a fixed meta-schema built with the same builder.  `rulesToValue`
renders a rule record as the plain object the matcher then walks: the six
base keys always present, the optional keys present when set (their relative
order is canonical here; no claim depends on it), coercers rendered as
function values, and a `props` record rendered with its enumerable entries
only (its two slots are non-enumerable, and nothing the matcher does to a
props record read as a *value* can see them).
-/

mutual
def rulesToValue : Rules → Value
  | .mk required nullb coerce values union type length pat integer range size props =>
    .obj ([("required", .bool required), ("null", .bool nullb),
           ("coerce", .arr (coerce.map (fun _ => Value.func))),
           ("values", .arr values),
           ("union", .arr (unionToValues union)),
           ("type", .str type)]
      ++ (match length with
          | some (.inl n) => [("length", .num n)]
          | some (.inr p) => [("length", .arr [.num p.1, .num p.2])]
          | none => [])
      ++ (match pat with
          | some p => [("pattern", .regexp p)]
          | none => [])
      ++ (match integer with
          | some b => [("integer", .bool b)]
          | none => [])
      ++ (match range with
          | some p => [("range", .arr [p.1, p.2])]
          | none => [])
      ++ (match size with
          | some (.inl n) => [("size", .num n)]
          | some (.inr p) => [("size", .arr [.num p.1, .num p.2])]
          | none => [])
      ++ (match props with
          | some p => [("props", propsToValue p)]
          | none => []))
termination_by r => sizeOf r
def unionToValues : List Rules → List Value
  | [] => []
  | u :: rest => rulesToValue u :: unionToValues rest
termination_by l => sizeOf l
def propsToValue : Props → Value
  | .mk entries _ _ => .obj (propsEntriesToValue entries)
termination_by p => sizeOf p
def propsEntriesToValue : List (String × Option Rules) → List (String × Value)
  | [] => []
  | (k, some r) :: rest => (k, rulesToValue r) :: propsEntriesToValue rest
  | (k, none) :: rest => (k, .undefined) :: propsEntriesToValue rest
termination_by l => sizeOf l
end

/-- The members of the fixed meta-schema built inside `check()`.  Note the
`coerce` member: the source passes the static *method* `µ.isArray` without
calling it, so the installed member is `(µ.isArray).rules`, which is
`undefined` (modeled `none`); every other member is a real schema. -/
def metaMembers : List (String × Option Rules) :=
    [("required", some (Schema.isBoolean Schema.base)),
     ("null", some (Schema.isBoolean Schema.base)),
     ("coerce", none),
     ("values", some (Schema.hasAtLeast (Schema.isArray0 Schema.base) (.fin 1))),
     ("union", some (Schema.hasAtLeast (Schema.isArray0 Schema.base) (.fin 2))),
     ("type", some (Schema.isAnyOf Schema.base
        [.str "string", .str "number", .str "date", .str "boolean", .str "regexp",
         .str "object", .str "array"])),
     ("length", some (Schema.isEither (Schema.isOptional Schema.base)
        [Schema.isInteger Schema.base,
         Schema.hasExactly (Schema.isArrayMembers Schema.base
           [("0", some (Schema.isInteger Schema.base)),
            ("1", some (Schema.isInteger Schema.base))]) (.fin 2)])),
     ("pattern", some (Schema.isRegExp (Schema.isOptional Schema.base))),
     ("integer", some (Schema.isBoolean (Schema.isOptional Schema.base))),
     ("range", some (Schema.hasExactly (Schema.isArrayMembers (Schema.isOptional Schema.base)
        [("0", some (Schema.isEither Schema.base
            [Schema.isNumber Schema.base, Schema.isDate Schema.base])),
         ("1", some (Schema.isEither Schema.base
            [Schema.isNumber Schema.base, Schema.isDate Schema.base]))]) (.fin 2))),
     ("size", some (Schema.isEither (Schema.isOptional Schema.base)
        [Schema.isInteger Schema.base,
         Schema.hasExactly (Schema.isArrayMembers Schema.base
           [("0", some (Schema.isInteger Schema.base)),
            ("1", some (Schema.isInteger Schema.base))]) (.fin 2)])),
     ("props", some (Schema.isObjectSchema (Schema.isOptional Schema.base)
        (Schema.isObject0 Schema.base)))]

/-- The fixed meta-schema record built inside `check()`:
`µ.isObject({...metaMembers...})`. -/
def metaRules : Rules := Schema.isObjectMembers Schema.base metaMembers

/-- `check()`: the instance's rule record, rendered as a plain value, is
validated against the meta-schema (`µ.isObject({...}).validate(this.rules)`;
the meta-schema instance is also the `this` of the call, so a member entry
that is `undefined` defaults to the whole meta-schema record). -/
def Schema.check (r : Rules) (fuel : Nat) : Except VErr VResult :=
  Schema.validate metaRules fuel (rulesToValue r) metaRules []

/-
### Basic lemmas about the matcher's combinators
-/

theorem mapEx_cons (g : α → Except VErr β) (a : α) (l : List α) :
    mapEx g (a :: l)
      = (g a).bind (fun b => (mapEx g l).bind (fun bs => .ok (b :: bs))) := rfl

theorem mapEx_ok_cons {g : α → Except VErr β} {a : α} {l : List α} {bs : List β}
    (h : mapEx g (a :: l) = .ok bs) :
    ∃ b tl, g a = .ok b ∧ mapEx g l = .ok tl ∧ bs = b :: tl := by
  rw [mapEx_cons] at h
  cases h1 : g a with
  | error e => rw [h1] at h; exact absurd h (by simp [Except.bind])
  | ok b =>
    rw [h1] at h
    cases h2 : mapEx g l with
    | error e => rw [h2] at h; exact absurd h (by simp [Except.bind])
    | ok tl =>
      rw [h2] at h
      simp only [Except.bind, Except.ok.injEq] at h
      exact ⟨b, tl, rfl, rfl, h.symm⟩

theorem mapEx_ok_forall {g : α → Except VErr β} :
    ∀ {l : List α} {bs : List β}, mapEx g l = .ok bs → ∀ b ∈ bs, ∃ a ∈ l, g a = .ok b := by
  intro l
  induction l with
  | nil => intro bs h b hb; simp [mapEx] at h; subst h; simp at hb
  | cons a tl ih =>
    intro bs h b hb
    obtain ⟨b0, tl0, h1, h2, h3⟩ := mapEx_ok_cons h
    subst h3
    rcases List.mem_cons.mp hb with hb | hb
    · exact ⟨a, List.mem_cons_self a tl, hb ▸ h1⟩
    · obtain ⟨a0, ha0, hg⟩ := ih h2 b hb
      exact ⟨a0, List.mem_cons_of_mem a ha0, hg⟩

theorem mapEx_mem_ok {g : α → Except VErr β} :
    ∀ {l : List α} {bs : List β} {a : α},
      mapEx g l = .ok bs → a ∈ l → ∃ b ∈ bs, g a = .ok b := by
  intro l
  induction l with
  | nil => intro bs a h ha; simp at ha
  | cons x tl ih =>
    intro bs a h ha
    obtain ⟨b0, tl0, h1, h2, h3⟩ := mapEx_ok_cons h
    subst h3
    rcases List.mem_cons.mp ha with ha | ha
    · exact ⟨b0, List.mem_cons_self b0 tl0, ha ▸ h1⟩
    · obtain ⟨b, hb, hg⟩ := ih h2 ha
      exact ⟨b, List.mem_cons_of_mem b0 hb, hg⟩

theorem mapEx_ok_length {g : α → Except VErr β} :
    ∀ {l : List α} {bs : List β}, mapEx g l = .ok bs → bs.length = l.length := by
  intro l
  induction l with
  | nil => intro bs h; simp [mapEx] at h; subst h; rfl
  | cons a tl ih =>
    intro bs h
    obtain ⟨b0, tl0, _, h2, h3⟩ := mapEx_ok_cons h
    subst h3
    simp [ih h2]

theorem mapEx_mono {g g2 : α → Except VErr β} :
    ∀ {l : List α} {bs : List β},
      (∀ a ∈ l, ∀ b, g a = .ok b → g2 a = .ok b) →
      mapEx g l = .ok bs → mapEx g2 l = .ok bs := by
  intro l
  induction l with
  | nil => intro bs _ h; exact h
  | cons a tl ih =>
    intro bs H h
    obtain ⟨b0, tl0, h1, h2, h3⟩ := mapEx_ok_cons h
    subst h3
    rw [mapEx_cons, H a (List.mem_cons_self a tl) b0 h1,
      ih (fun x hx => H x (List.mem_cons_of_mem a hx)) h2]
    rfl

theorem mapEx_congr {g g2 : α → Except VErr β} :
    ∀ {l : List α}, (∀ a ∈ l, g a = g2 a) → mapEx g l = mapEx g2 l := by
  intro l
  induction l with
  | nil => intro _; rfl
  | cons a tl ih =>
    intro H
    rw [mapEx_cons, mapEx_cons, H a (List.mem_cons_self a tl),
      ih (fun x hx => H x (List.mem_cons_of_mem a hx))]

theorem foldAux_or (rs : List VResult) :
    ∀ acc : VResult,
      rs.foldl (fun a b => (a.1 || b.1, a.2 ++ b.2)) acc
        = (acc.1 || rs.any (fun x => x.1), acc.2 ++ (rs.map (fun x => x.2)).flatten) := by
  induction rs with
  | nil => intro acc; simp
  | cons x tl ih =>
    intro acc
    simp only [List.foldl_cons, List.any_cons, List.map_cons, List.flatten, ih]
    simp [Bool.or_assoc, List.append_assoc]

theorem unionFold_eq (rs : List VResult) :
    unionFold rs = (rs.any (fun x => x.1), (rs.map (fun x => x.2)).flatten) := by
  simp [unionFold, foldAux_or]

theorem foldAux_and (rs : List VResult) :
    ∀ acc : VResult,
      rs.foldl (fun a b => (a.1 && b.1, a.2 ++ b.2)) acc
        = (acc.1 && rs.all (fun x => x.1), acc.2 ++ (rs.map (fun x => x.2)).flatten) := by
  induction rs with
  | nil => intro acc; simp
  | cons x tl ih =>
    intro acc
    simp only [List.foldl_cons, List.all_cons, List.map_cons, List.flatten, ih]
    simp [Bool.and_assoc, List.append_assoc]

theorem foldResults_eq (rs : List VResult) :
    foldResults rs = (rs.all (fun x => x.1), (rs.map (fun x => x.2)).flatten) := by
  simp [foldResults, foldAux_and]

/-
### The validity/violations consistency invariant

`PRes` is the shape every result the matcher *returns* satisfies except at a
union node: an empty violation list forces a valid verdict, and an invalid
verdict forces a nonempty violation list.  (A union node can return valid
with violations, which is why the converse direction fails; see the claims.)
-/

/-- Result consistency: no violations implies valid, and invalid implies at
least one violation. -/
def PRes (res : VResult) : Prop :=
  (res.2 = [] → res.1 = true) ∧ (res.1 = false → res.2 ≠ [])

theorem PRes_trueEmpty : PRes (true, []) := by
  constructor <;> simp

theorem bind_ok {x : Except VErr γ} {f : γ → Except VErr δ} {r : δ}
    (h : x.bind f = .ok r) : ∃ c, x = .ok c ∧ f c = .ok r := by
  cases x with
  | error e => exact absurd h (by simp [Except.bind])
  | ok c => exact ⟨c, rfl, h⟩

theorem errorResult_ok {path : List Seg} {msg : String} {res : VResult}
    (h : errorResult path msg = .ok res) : ∃ ks, res = (false, [(ks, msg)]) := by
  obtain ⟨c, h1, h2⟩ := bind_ok h
  simp only [Except.ok.injEq] at h2
  exact ⟨c, h2.symm⟩

theorem PRes_errorResult {path : List Seg} {msg : String} {res : VResult}
    (h : errorResult path msg = .ok res) : PRes res := by
  obtain ⟨ks, rfl⟩ := errorResult_ok h
  constructor <;> simp

theorem ok_trueEmpty {res : VResult}
    (h : (Except.ok (true, []) : Except VErr VResult) = .ok res) : PRes res := by
  simp only [Except.ok.injEq] at h
  exact h ▸ PRes_trueEmpty

theorem PRes_checkStringPattern {path : List Seg} {rules : Rules} {s : String} {res : VResult}
    (h : checkStringPattern path rules s = .ok res) : PRes res := by
  unfold checkStringPattern at h
  split at h
  · split at h
    · split at h
      · exact absurd h (by simp)
      · exact PRes_errorResult h
    · exact ok_trueEmpty h
  · exact ok_trueEmpty h

theorem PRes_checkString {path : List Seg} {rules : Rules} {s : String} {res : VResult}
    (h : checkString path rules s = .ok res) : PRes res := by
  unfold checkString at h
  split at h
  · split at h
    · exact PRes_errorResult h
    · exact PRes_checkStringPattern h
  · split at h
    · exact PRes_errorResult h
    · split at h
      · exact PRes_errorResult h
      · exact PRes_checkStringPattern h
  · exact PRes_checkStringPattern h

theorem PRes_checkNumber {path : List Seg} {rules : Rules} {n : JNum} {res : VResult}
    (h : checkNumber path rules n = .ok res) : PRes res := by
  unfold checkNumber at h
  split at h
  · exact PRes_errorResult h
  · split at h
    · split at h
      · exact PRes_errorResult h
      · split at h
        · exact PRes_errorResult h
        · exact ok_trueEmpty h
    · exact ok_trueEmpty h

theorem PRes_checkDate {path : List Seg} {rules : Rules} {t : JNum} {res : VResult}
    (h : checkDate path rules t = .ok res) : PRes res := by
  unfold checkDate at h
  split at h
  · split at h
    · exact PRes_errorResult h
    · split at h
      · exact PRes_errorResult h
      · exact ok_trueEmpty h
  · exact ok_trueEmpty h

theorem PRes_finishNode {rs : List VResult} (H : ∀ x ∈ rs, PRes x) :
    PRes (finishNode rs) := by
  unfold finishNode
  rw [foldResults_eq]
  simp only
  split
  · exact PRes_trueEmpty
  · rename_i hall
    simp only [PRes, ne_eq]
    refine ⟨fun h2 => ?_, fun _ h2 => ?_⟩
    all_goals {
      rw [List.flatten_eq_nil_iff] at h2
      rcases List.all_eq_false.mp (Bool.eq_false_iff.mpr hall) with ⟨x, hx, hx1⟩
      exact absurd (h2 x.2 (List.mem_map_of_mem _ hx))
        ((H x hx).2 (Bool.eq_false_iff.mpr hx1))
    }

theorem PRes_unionFold {rs : List VResult} (hne : rs ≠ [])
    (H : ∀ x ∈ rs, PRes x) : PRes (unionFold rs) := by
  rw [unionFold_eq]
  constructor
  · intro h2
    simp only at h2
    rw [List.flatten_eq_nil_iff] at h2
    obtain ⟨x, hx⟩ := List.exists_mem_of_ne_nil rs hne
    have hx1 : x.1 = true := (H x hx).1 (h2 x.2 (List.mem_map_of_mem _ hx))
    simp only
    exact List.any_eq_true.mpr ⟨x, hx, hx1⟩
  · intro h1 h2
    simp only at h1 h2
    rw [List.flatten_eq_nil_iff] at h2
    obtain ⟨x, hx⟩ := List.exists_mem_of_ne_nil rs hne
    have hx1 : x.1 = false :=
      Bool.eq_false_iff.mpr (List.any_eq_false.mp h1 x hx)
    exact (H x hx).2 hx1 (h2 x.2 (List.mem_map_of_mem _ hx))

theorem PRes_checkObject {rec : Value → Rules → List Seg → Except VErr VResult}
    {self : Rules} {pr : Props} {oe : List (String × Value)} {path : List Seg} {res : VResult}
    (Hrec : ∀ v r p res2, rec v r p = .ok res2 → PRes res2)
    (h : checkObject rec self pr oe path = .ok res) : PRes res := by
  obtain ⟨entries, keys, vals⟩ := pr
  unfold checkObject at h
  split at h
  · exact PRes_errorResult h
  · obtain ⟨named, h1, h⟩ := bind_ok h
    obtain ⟨unkeys, h2, h⟩ := bind_ok h
    obtain ⟨unvals, h3, h⟩ := bind_ok h
    simp only [Except.ok.injEq] at h
    subst h
    refine PRes_finishNode (fun x hx => ?_)
    simp only [List.mem_append] at hx
    rcases hx with (hx | hx) | hx
    · obtain ⟨a, _, hg⟩ := mapEx_ok_forall h1 x hx
      exact Hrec _ _ _ _ hg
    · cases keys with
      | some kr =>
        obtain ⟨a, _, hg⟩ := mapEx_ok_forall h2 x hx
        exact Hrec _ _ _ _ hg
      | none =>
        injection h2 with h2
        subst h2
        simp at hx
    · cases vals with
      | some vr =>
        obtain ⟨a, _, hg⟩ := mapEx_ok_forall h3 x hx
        exact Hrec _ _ _ _ hg
      | none =>
        injection h3 with h3
        subst h3
        simp at hx

theorem PRes_checkArray {rec : Value → Rules → List Seg → Except VErr VResult}
    {self : Rules} {pr : Props} {items : List Value} {path : List Seg} {res : VResult}
    (Hrec : ∀ v r p res2, rec v r p = .ok res2 → PRes res2)
    (h : checkArray rec self pr items path = .ok res) : PRes res := by
  obtain ⟨entries, keys, vals⟩ := pr
  unfold checkArray at h
  split at h
  · exact PRes_errorResult h
  · obtain ⟨named, h1, h⟩ := bind_ok h
    obtain ⟨extra, h2, h⟩ := bind_ok h
    simp only [Except.ok.injEq] at h
    subst h
    refine PRes_finishNode (fun x hx => ?_)
    rcases List.mem_append.mp hx with hx | hx
    · obtain ⟨a, _, hg⟩ := mapEx_ok_forall h1 x hx
      exact Hrec _ _ _ _ hg
    · cases vals with
      | some vr =>
        obtain ⟨opts, h4, h5⟩ := bind_ok h2
        simp only [Except.ok.injEq] at h5
        subst h5
        obtain ⟨o, ho, hid⟩ := List.mem_filterMap.mp hx
        subst hid
        obtain ⟨iv, _, hg⟩ := mapEx_ok_forall h4 _ ho
        split at hg
        · obtain ⟨res3, hg1, hg2⟩ := bind_ok hg
          simp only [Except.ok.injEq, Option.some.injEq] at hg2
          exact hg2 ▸ Hrec _ _ _ _ hg1
        · exact absurd hg (by simp)
      | none =>
        injection h2 with h2
        subst h2
        simp at hx

theorem PRes_checkObjectKind {rec : Value → Rules → List Seg → Except VErr VResult}
    {self rules : Rules} {oe : List (String × Value)} {path : List Seg} {res : VResult}
    (Hrec : ∀ v r p res2, rec v r p = .ok res2 → PRes res2)
    (h : checkObjectKind rec self rules oe path = .ok res) : PRes res := by
  unfold checkObjectKind at h
  split at h
  · split at h
    · exact PRes_errorResult h
    · split at h
      · exact PRes_checkObject Hrec h
      · exact ok_trueEmpty h
  · split at h
    · exact PRes_errorResult h
    · split at h
      · exact PRes_errorResult h
      · split at h
        · exact PRes_checkObject Hrec h
        · exact ok_trueEmpty h
  · split at h
    · exact PRes_checkObject Hrec h
    · exact ok_trueEmpty h

theorem PRes_checkArrayKind {rec : Value → Rules → List Seg → Except VErr VResult}
    {self rules : Rules} {items : List Value} {path : List Seg} {res : VResult}
    (Hrec : ∀ v r p res2, rec v r p = .ok res2 → PRes res2)
    (h : checkArrayKind rec self rules items path = .ok res) : PRes res := by
  unfold checkArrayKind at h
  split at h
  · split at h
    · exact PRes_errorResult h
    · split at h
      · exact PRes_checkArray Hrec h
      · exact ok_trueEmpty h
  · split at h
    · exact PRes_errorResult h
    · split at h
      · exact PRes_errorResult h
      · split at h
        · exact PRes_checkArray Hrec h
        · exact ok_trueEmpty h
  · split at h
    · exact PRes_checkArray Hrec h
    · exact ok_trueEmpty h

theorem PRes_validateKind {rec : Value → Rules → List Seg → Except VErr VResult}
    {self : Rules} {value : Value} {rules : Rules} {path : List Seg} {res : VResult}
    (Hrec : ∀ v r p res2, rec v r p = .ok res2 → PRes res2)
    (h : validateKind rec self value rules path = .ok res) : PRes res := by
  unfold validateKind at h
  repeat'
    first
      | exact PRes_errorResult h
      | exact ok_trueEmpty h
      | exact PRes_checkString h
      | exact PRes_checkNumber h
      | exact PRes_checkDate h
      | exact PRes_checkObjectKind Hrec h
      | exact PRes_checkArrayKind Hrec h
      | split at h

theorem PRes_validateBody {rec : Value → Rules → List Seg → Except VErr VResult}
    {self : Rules} {value : Value} {rules : Rules} {path : List Seg} {res : VResult}
    (Hrec : ∀ v r p res2, rec v r p = .ok res2 → PRes res2)
    (h : validateBody rec self value rules path = .ok res) : PRes res := by
  unfold validateBody at h
  split at h
  · split at h
    · exact PRes_errorResult h
    · exact ok_trueEmpty h
  · split at h
    · split at h
      · exact PRes_errorResult h
      · exact ok_trueEmpty h
    · split at h
      · split at h
        · exact PRes_errorResult h
        · exact ok_trueEmpty h
      · split at h
        · obtain ⟨results, h1, h⟩ := bind_ok h
          simp only [Except.ok.injEq] at h
          subst h
          refine PRes_unionFold (fun hnil => ?_) (fun x hx => ?_)
          · rename_i hu
            have hlen := mapEx_ok_length h1
            rw [hnil] at hlen
            simp only [List.length_nil] at hlen
            rw [List.eq_nil_of_length_eq_zero hlen.symm] at hu
            simp at hu
          · obtain ⟨u, _, hg⟩ := mapEx_ok_forall h1 x hx
            exact Hrec _ _ _ _ hg
        · exact PRes_validateKind Hrec h

/-- Every result the matcher returns is consistent: no violations implies
valid, invalid implies at least one violation. -/
theorem validate_PRes :
    ∀ (f : Nat) (self : Rules) (v : Value) (r : Rules) (p : List Seg) (res : VResult),
      Schema.validate self f v r p = .ok res → PRes res := by
  intro f
  induction f with
  | zero => intro self v r p res h; exact absurd h (by simp [Schema.validate])
  | succ n ih =>
    intro self v r p res h
    exact PRes_validateBody (fun v2 r2 p2 res2 h2 => ih self v2 r2 p2 res2 h2) h

/-
### Fuel-monotonicity and determinism

The fuel parameter is only the embedding's termination device: any result
the matcher returns at some fuel it returns at every larger fuel, so any two
converging runs on the same `(value, rules, path)` agree.
-/

theorem bind_mono {x x2 : Except VErr γ} {f f2 : γ → Except VErr δ} {r : δ}
    (hx : ∀ c, x = .ok c → x2 = .ok c)
    (hf : ∀ c, f c = .ok r → f2 c = .ok r)
    (h : x.bind f = .ok r) : x2.bind f2 = .ok r := by
  obtain ⟨c, h1, h2⟩ := bind_ok h
  rw [hx c h1]
  exact hf c h2

/-- Transfer of ok-results along a pointwise-stronger recursive call. -/
def RecLe (rec rec2 : Value → Rules → List Seg → Except VErr VResult) : Prop :=
  ∀ v r p res, rec v r p = .ok res → rec2 v r p = .ok res

theorem checkObject_mono {rec rec2 : Value → Rules → List Seg → Except VErr VResult}
    (H : RecLe rec rec2) {self : Rules} {pr : Props} {oe : List (String × Value)}
    {path : List Seg} {res : VResult}
    (h : checkObject rec self pr oe path = .ok res) :
    checkObject rec2 self pr oe path = .ok res := by
  unfold checkObject at h ⊢
  split at h
  · rename_i hc
    rw [if_pos hc]
    exact h
  · rename_i hc
    rw [if_neg hc]
    refine bind_mono (fun c hc2 => mapEx_mono (fun m _ b hb => H _ _ _ _ hb) hc2)
      (fun named hn => ?_) h
    refine bind_mono (fun c hc2 => ?_) (fun unkeys hk => ?_) hn
    · rcases hkk : pr.keys with _ | kr
      · simp only [hkk] at hc2 ⊢
        exact hc2
      · simp only [hkk] at hc2 ⊢
        exact mapEx_mono (fun e _ b hb => H _ _ _ _ hb) hc2
    · refine bind_mono (fun c hc2 => ?_) (fun unvals hv => hv) hk
      rcases hvv : pr.vals with _ | vr
      · simp only [hvv] at hc2 ⊢
        exact hc2
      · simp only [hvv] at hc2 ⊢
        exact mapEx_mono (fun e _ b hb => H _ _ _ _ hb) hc2

theorem checkArray_mono {rec rec2 : Value → Rules → List Seg → Except VErr VResult}
    (H : RecLe rec rec2) {self : Rules} {pr : Props} {items : List Value}
    {path : List Seg} {res : VResult}
    (h : checkArray rec self pr items path = .ok res) :
    checkArray rec2 self pr items path = .ok res := by
  unfold checkArray at h ⊢
  split at h
  · rename_i hc
    rw [if_pos hc]
    exact h
  · rename_i hc
    rw [if_neg hc]
    refine bind_mono (fun c hc2 => mapEx_mono (fun m _ b hb => H _ _ _ _ hb) hc2)
      (fun named hn => ?_) h
    refine bind_mono (fun c hc2 => ?_) (fun extra he => he) hn
    rcases hvv : pr.vals with _ | vr
    · simp only [hvv] at hc2 ⊢
      exact hc2
    · simp only [hvv] at hc2 ⊢
      refine bind_mono (fun opts ho => ?_) (fun opts ho => ho) hc2
      refine mapEx_mono (fun iv _ b hb => ?_) ho
      split at hb
      · rename_i hci
        rw [if_pos hci]
        exact bind_mono (fun c hc3 => H _ _ _ _ hc3) (fun c hc3 => hc3) hb
      · rename_i hci
        rw [if_neg hci]
        exact hb

theorem checkObjectKind_mono {rec rec2 : Value → Rules → List Seg → Except VErr VResult}
    (H : RecLe rec rec2) {self rules : Rules} {oe : List (String × Value)}
    {path : List Seg} {res : VResult}
    (h : checkObjectKind rec self rules oe path = .ok res) :
    checkObjectKind rec2 self rules oe path = .ok res := by
  unfold checkObjectKind at h ⊢
  rcases hs : rules.size with _ | n | ⟨mn, mx⟩ <;> simp only [hs] at h ⊢
  · rcases hp : rules.props with _ | p <;> simp only [hp] at h ⊢
    · exact h
    · exact checkObject_mono H h
  · split at h
    · rename_i hc
      rw [if_pos hc]
      exact h
    · rename_i hc
      rw [if_neg hc]
      rcases hp : rules.props with _ | p <;> simp only [hp] at h ⊢
      · exact h
      · exact checkObject_mono H h
  · split at h
    · rename_i hc
      rw [if_pos hc]
      exact h
    · rename_i hc
      rw [if_neg hc]
      split at h
      · rename_i hc2
        rw [if_pos hc2]
        exact h
      · rename_i hc2
        rw [if_neg hc2]
        rcases hp : rules.props with _ | p <;> simp only [hp] at h ⊢
        · exact h
        · exact checkObject_mono H h

theorem checkArrayKind_mono {rec rec2 : Value → Rules → List Seg → Except VErr VResult}
    (H : RecLe rec rec2) {self rules : Rules} {items : List Value}
    {path : List Seg} {res : VResult}
    (h : checkArrayKind rec self rules items path = .ok res) :
    checkArrayKind rec2 self rules items path = .ok res := by
  unfold checkArrayKind at h ⊢
  rcases hs : rules.size with _ | n | ⟨mn, mx⟩ <;> simp only [hs] at h ⊢
  · rcases hp : rules.props with _ | p <;> simp only [hp] at h ⊢
    · exact h
    · exact checkArray_mono H h
  · split at h
    · rename_i hc
      rw [if_pos hc]
      exact h
    · rename_i hc
      rw [if_neg hc]
      rcases hp : rules.props with _ | p <;> simp only [hp] at h ⊢
      · exact h
      · exact checkArray_mono H h
  · split at h
    · rename_i hc
      rw [if_pos hc]
      exact h
    · rename_i hc
      rw [if_neg hc]
      split at h
      · rename_i hc2
        rw [if_pos hc2]
        exact h
      · rename_i hc2
        rw [if_neg hc2]
        rcases hp : rules.props with _ | p <;> simp only [hp] at h ⊢
        · exact h
        · exact checkArray_mono H h

theorem validateKind_mono {rec rec2 : Value → Rules → List Seg → Except VErr VResult}
    (H : RecLe rec rec2) {self : Rules} {value : Value} {rules : Rules}
    {path : List Seg} {res : VResult}
    (h : validateKind rec self value rules path = .ok res) :
    validateKind rec2 self value rules path = .ok res := by
  unfold validateKind at h ⊢
  split_ifs at h ⊢ <;>
    first
      | exact h
      | exact checkObjectKind_mono H h
      | exact checkArrayKind_mono H h

theorem validateBody_mono {rec rec2 : Value → Rules → List Seg → Except VErr VResult}
    (H : RecLe rec rec2) {self : Rules} {value : Value} {rules : Rules}
    {path : List Seg} {res : VResult}
    (h : validateBody rec self value rules path = .ok res) :
    validateBody rec2 self value rules path = .ok res := by
  unfold validateBody at h ⊢
  split_ifs at h ⊢ <;>
    first
      | exact h
      | exact validateKind_mono H h
      | exact bind_mono (fun c hc => mapEx_mono (fun u _ b hb => H _ _ _ _ hb) hc)
          (fun results hr => hr) h

theorem validate_mono_succ :
    ∀ (f : Nat) (self : Rules) (v : Value) (r : Rules) (p : List Seg) (res : VResult),
      Schema.validate self f v r p = .ok res → Schema.validate self (f + 1) v r p = .ok res := by
  intro f
  induction f with
  | zero => intro self v r p res h; exact absurd h (by simp [Schema.validate])
  | succ n ih =>
    intro self v r p res h
    exact validateBody_mono (fun v2 r2 p2 res2 h2 => ih self v2 r2 p2 res2 h2) h

theorem validate_mono_le {f f2 : Nat} (hle : f ≤ f2) {self : Rules} {v : Value}
    {r : Rules} {p : List Seg} {res : VResult}
    (h : Schema.validate self f v r p = .ok res) :
    Schema.validate self f2 v r p = .ok res := by
  induction hle with
  | refl => exact h
  | step _ ih => exact validate_mono_succ _ _ _ _ _ _ ih

/-
### Completely-defined rule records

A member entry that is `undefined` (as the `µ.isArray` slip produces in the
meta-schema) makes the matcher fall back to the rules of the schema instance
the call started on, so two entry points can disagree on such records.
`defTotal` rules that out: every member entry, key rule, value rule and
union alternative is a real rule record, recursively.
-/

mutual
def defTotal : Rules → Bool
  | .mk _ _ _ _ union _ _ _ _ _ _ props =>
    defTotalList union &&
      (match props with
       | some p => defTotalProps p
       | none => true)
termination_by r => sizeOf r
def defTotalList : List Rules → Bool
  | [] => true
  | r :: rest => defTotal r && defTotalList rest
termination_by l => sizeOf l
def defTotalProps : Props → Bool
  | .mk entries keys vals =>
    defTotalEntries entries
      && (match keys with | some k => defTotal k | none => true)
      && (match vals with | some v => defTotal v | none => true)
termination_by p => sizeOf p
def defTotalEntries : List (String × Option Rules) → Bool
  | [] => true
  | (_, some r) :: rest => defTotal r && defTotalEntries rest
  | (_, none) :: _ => false
termination_by l => sizeOf l
end

theorem andT {a b : Bool} (h : (a && b) = true) : a = true ∧ b = true := by
  simp only [Bool.and_eq_true] at h
  exact h

theorem defTotalList_mem {l : List Rules} (h : defTotalList l = true) {r : Rules}
    (hm : r ∈ l) : defTotal r = true := by
  induction l with
  | nil => simp at hm
  | cons x rest ih =>
    unfold defTotalList at h
    rcases List.mem_cons.mp hm with hm | hm
    · exact hm ▸ (andT h).1
    · exact ih (andT h).2 hm

theorem defTotal_union {r : Rules} (h : defTotal r = true) : defTotalList r.union = true := by
  cases r
  unfold defTotal at h
  exact (andT h).1

theorem defTotal_props {r : Rules} (h : defTotal r = true) {p : Props}
    (hp : r.props = some p) : defTotalProps p = true := by
  cases r
  unfold defTotal at h
  simp only [Rules.props] at hp
  subst hp
  exact (andT h).2

theorem defTotalProps_entries {p : Props} (h : defTotalProps p = true) :
    defTotalEntries p.entries = true := by
  cases p
  unfold defTotalProps at h
  exact (andT (andT h).1).1

theorem defTotalProps_keys {p : Props} (h : defTotalProps p = true) {k : Rules}
    (hk : p.keys = some k) : defTotal k = true := by
  cases p
  unfold defTotalProps at h
  simp only [Props.keys] at hk
  subst hk
  exact (andT (andT h).1).2

theorem defTotalProps_vals {p : Props} (h : defTotalProps p = true) {v : Rules}
    (hv : p.vals = some v) : defTotal v = true := by
  cases p
  unfold defTotalProps at h
  simp only [Props.vals] at hv
  subst hv
  exact (andT h).2

theorem defTotalEntries_mem {es : List (String × Option Rules)}
    (h : defTotalEntries es = true) {m : String × Option Rules} (hm : m ∈ es) :
    ∃ r, m.2 = some r ∧ defTotal r = true := by
  induction es with
  | nil => simp at hm
  | cons x rest ih =>
    rcases x with ⟨k, _ | r0⟩
    · unfold defTotalEntries at h
      exact absurd h (by simp)
    · unfold defTotalEntries at h
      rcases List.mem_cons.mp hm with hm | hm
      · exact ⟨r0, by rw [hm], (andT h).1⟩
      · exact ih (andT h).2 hm

theorem defTotal_merge {r u : Rules} (hr : defTotal r = true) (hu : defTotal u = true) :
    defTotal (mergeForUnion r u) = true := by
  cases r with
  | mk a1 b1 c1 d1 e1 t1 l1 pa1 i1 ra1 s1 pr1 =>
    cases u with
    | mk a2 b2 c2 d2 e2 t2 l2 pa2 i2 ra2 s2 pr2 =>
      unfold defTotal at hr hu
      rw [mergeForUnion]
      unfold defTotal
      cases pr2 with
      | some p2 => simp_all [defTotalList, ovr]
      | none =>
        cases pr1 with
        | some p1 => simp_all [defTotalList, ovr]
        | none => simp [defTotalList, ovr]

/-- Pointwise agreement of two recursive calls on completely-defined
records. -/
def RecEq (rec1 rec2 : Value → Rules → List Seg → Except VErr VResult) : Prop :=
  ∀ v r p, defTotal r = true → rec1 v r p = rec2 v r p

theorem checkObject_selfIrrel {rec1 rec2 : Value → Rules → List Seg → Except VErr VResult}
    (H : RecEq rec1 rec2) {s1 s2 : Rules} {pr : Props} {oe : List (String × Value)}
    {path : List Seg} (hp : defTotalProps pr = true) :
    checkObject rec1 s1 pr oe path = checkObject rec2 s2 pr oe path := by
  unfold checkObject
  by_cases hc : ((pr.keys.isNone && pr.vals.isNone)
      && !(oe.all (fun e => pr.entries.any (fun m => m.1 == e.1)))) = true
  · simp only [if_pos hc]
  · simp only [if_neg hc]
    congr 1
    · refine mapEx_congr (fun m hm => ?_)
      obtain ⟨r0, hr0, hd⟩ := defTotalEntries_mem (defTotalProps_entries hp) hm
      rw [hr0]
      exact H _ _ _ hd
    · funext named
      congr 1
      · rcases hk : pr.keys with _ | kr <;> simp only [hk]
        exact mapEx_congr (fun e he => H _ _ _ (defTotalProps_keys hp hk))
      · funext unkeys
        congr 1
        rcases hv : pr.vals with _ | vr <;> simp only [hv]
        exact mapEx_congr (fun e he => H _ _ _ (defTotalProps_vals hp hv))

theorem checkArray_selfIrrel {rec1 rec2 : Value → Rules → List Seg → Except VErr VResult}
    (H : RecEq rec1 rec2) {s1 s2 : Rules} {pr : Props} {items : List Value}
    {path : List Seg} (hp : defTotalProps pr = true) :
    checkArray rec1 s1 pr items path = checkArray rec2 s2 pr items path := by
  unfold checkArray
  by_cases hc : (pr.vals.isNone && decide (pr.entries.length < items.length)) = true
  · simp only [if_pos hc]
  · simp only [if_neg hc]
    congr 1
    · refine mapEx_congr (fun m hm => ?_)
      obtain ⟨r0, hr0, hd⟩ := defTotalEntries_mem (defTotalProps_entries hp) hm
      rw [hr0]
      exact H _ _ _ hd
    · funext named
      congr 1
      rcases hv : pr.vals with _ | vr <;> simp only [hv]
      congr 1
      refine mapEx_congr (fun iv hiv => ?_)
      by_cases hci : (!keyInProps pr.entries (toString iv.1)) = true
      · simp only [if_pos hci]
        rw [H _ _ _ (defTotalProps_vals hp hv)]
      · simp only [if_neg hci]

theorem checkObjectKind_selfIrrel {rec1 rec2 : Value → Rules → List Seg → Except VErr VResult}
    (H : RecEq rec1 rec2) {s1 s2 rules : Rules} {oe : List (String × Value)}
    {path : List Seg} (hr : defTotal rules = true) :
    checkObjectKind rec1 s1 rules oe path = checkObjectKind rec2 s2 rules oe path := by
  unfold checkObjectKind
  rcases hs : rules.size with _ | n | ⟨mn, mx⟩ <;> simp only [hs] <;>
    rcases hp : rules.props with _ | p <;> simp only [hp] <;>
      try rfl
  all_goals {
    have hdp := defTotal_props hr hp
    first
      | exact checkObject_selfIrrel H hdp
      | (split_ifs <;> first | rfl | exact checkObject_selfIrrel H hdp)
  }

theorem checkArrayKind_selfIrrel {rec1 rec2 : Value → Rules → List Seg → Except VErr VResult}
    (H : RecEq rec1 rec2) {s1 s2 rules : Rules} {items : List Value}
    {path : List Seg} (hr : defTotal rules = true) :
    checkArrayKind rec1 s1 rules items path = checkArrayKind rec2 s2 rules items path := by
  unfold checkArrayKind
  rcases hs : rules.size with _ | n | ⟨mn, mx⟩ <;> simp only [hs] <;>
    rcases hp : rules.props with _ | p <;> simp only [hp] <;>
      try rfl
  all_goals {
    have hdp := defTotal_props hr hp
    first
      | exact checkArray_selfIrrel H hdp
      | (split_ifs <;> first | rfl | exact checkArray_selfIrrel H hdp)
  }

theorem validateKind_selfIrrel {rec1 rec2 : Value → Rules → List Seg → Except VErr VResult}
    (H : RecEq rec1 rec2) {s1 s2 : Rules} {value : Value} {rules : Rules}
    {path : List Seg} (hr : defTotal rules = true) :
    validateKind rec1 s1 value rules path = validateKind rec2 s2 value rules path := by
  unfold validateKind
  split_ifs <;>
    first
      | rfl
      | exact checkObjectKind_selfIrrel H hr
      | exact checkArrayKind_selfIrrel H hr

theorem validateBody_selfIrrel {rec1 rec2 : Value → Rules → List Seg → Except VErr VResult}
    (H : RecEq rec1 rec2) {s1 s2 : Rules} {value : Value} {rules : Rules}
    {path : List Seg} (hr : defTotal rules = true) :
    validateBody rec1 s1 value rules path = validateBody rec2 s2 value rules path := by
  unfold validateBody
  split_ifs <;>
    first
      | rfl
      | exact validateKind_selfIrrel H hr
      | (congr 1
         exact mapEx_congr (fun u hu =>
           H _ _ _ (defTotal_merge hr (defTotalList_mem (defTotal_union hr) hu))))

/-- On completely-defined rule records, the matcher's result does not depend
on which schema instance the call started from. -/
theorem validate_selfIrrel (s1 s2 : Rules) :
    ∀ (f : Nat) (v : Value) (r : Rules) (p : List Seg), defTotal r = true →
      Schema.validate s1 f v r p = Schema.validate s2 f v r p := by
  intro f
  induction f with
  | zero => intro v r p _; rfl
  | succ n ih =>
    intro v r p hr
    exact validateBody_selfIrrel (fun v2 r2 p2 h2 => ih v2 r2 p2 h2) hr

/-
### Lemmas about the self-check on arbitrary rule records
-/

/-- The `values: µ.isArray().hasAtLeast(1)` member of the meta-schema. -/
def valuesMeta : Rules := Schema.hasAtLeast (Schema.isArray0 Schema.base) (.fin 1)

theorem valuesMeta_mem : ("values", some valuesMeta) ∈ metaMembers := by
  unfold metaMembers
  exact List.mem_cons_of_mem _ (List.mem_cons_of_mem _ (List.mem_cons_of_mem _
    (List.mem_cons_self _ _)))

/-- A rule record rendered as a value is a plain object whose `values`
property is the array of the record's literal list. -/
theorem objGet_rulesToValue_values (r : Rules) :
    ∃ oe, rulesToValue r = .obj oe ∧ objGet oe "values" = .arr r.values := by
  cases r with
  | mk a b c d e t l pa i ra s pr =>
    unfold rulesToValue
    refine ⟨_, rfl, ?_⟩
    simp only [List.cons_append, objGet, Rules.values]
    rfl

theorem finishNode_false {rs : List VResult} {x : VResult} (hx : x ∈ rs)
    (h1 : x.1 = false) : (finishNode rs).1 = false := by
  unfold finishNode
  rw [foldResults_eq]
  simp only
  split
  · rename_i hall
    rw [List.all_eq_true] at hall
    exact absurd (hall x hx) (by simp [h1])
  · rfl

/-- The integrity check rejects every rule record whose `values` list is
empty (in particular every record that leaves `values` at its default): its
`values` member fails `µ.isArray().hasAtLeast(1)`, so the meta-schema's
object node is invalid. -/
theorem check_values_empty {r : Rules} (hv : r.values = []) :
    ∀ (f : Nat) (res : VResult), Schema.check r f = .ok res → res.1 = false := by
  intro f res h
  obtain ⟨oe, hoe, hget⟩ := objGet_rulesToValue_values r
  unfold Schema.check at h
  rw [hoe] at h
  cases f with
  | zero => exact absurd h (by simp [Schema.validate])
  | succ n =>
    have hstep : Schema.validate metaRules (n + 1) (.obj oe) metaRules []
        = checkObject (Schema.validate metaRules n) metaRules
            (Props.mk metaMembers none none) oe [] := rfl
    rw [hstep] at h
    unfold checkObject at h
    split at h
    · obtain ⟨ks, hres⟩ := errorResult_ok h
      rw [hres]
    · obtain ⟨named, h1, h⟩ := bind_ok h
      obtain ⟨unkeys, h2, h⟩ := bind_ok h
      obtain ⟨unvals, h3, h⟩ := bind_ok h
      simp only [Except.ok.injEq] at h
      subst h
      obtain ⟨b, hb, hg⟩ := mapEx_mem_ok h1 valuesMeta_mem
      have hg2 : Schema.validate metaRules n (objGet oe "values") valuesMeta
          (([] : List Seg) ++ [Seg.str "values"]) = .ok b := hg
      rw [hget, hv] at hg2
      cases n with
      | zero => exact absurd hg2 (by simp [Schema.validate])
      | succ n2 =>
        have hcomp : Schema.validate metaRules (n2 + 1) (.arr []) valuesMeta
            (([] : List Seg) ++ [Seg.str "values"])
            = .ok (false, [(["values"], "has fewer than 1 items.")]) := rfl
        rw [hcomp] at hg2
        injection hg2 with hg2
        exact finishNode_false
          (List.mem_append.mpr (Or.inl (List.mem_append.mpr (Or.inl hb))))
          (by rw [← hg2])

theorem mapEx_map {g : β → Except VErr γ} {h : α → β} :
    ∀ l : List α, mapEx g (l.map h) = mapEx (fun a => g (h a)) l := by
  intro l
  induction l with
  | nil => rfl
  | cons a tl ih => rw [List.map_cons, mapEx_cons, mapEx_cons, ih]

theorem ovr_none (p : Option α) : ovr p none = p := by
  cases p <;> rfl

/-
### The claims
-/

/-- The union schema `Schema.isEither(Schema.isNumber, Schema.isBoolean)`. -/
def unionNumBool : Rules :=
  Schema.isEither Schema.base [Schema.isNumber Schema.base, Schema.isBoolean Schema.base]

/-- C1 (counterexample): matching the number `5` against
`isEither(isNumber, isBoolean)` returns valid, yet the violation list is the
non-empty `["is not a boolean."]` collected from the failing alternative, so
`valid = true` does not imply an empty violation list when the rule set
contains a union rule. -/
theorem claim_C1_counterexample :
    Schema.validateTop unionNumBool (.num (.fin 5)) 6
        = .ok (true, [([], "is not a boolean.")])
      ∧ ([([], "is not a boolean.")] : List (List String × String)) ≠ [] := by
  exact ⟨rfl, by simp⟩

/-- C1 (amended): the two outputs are consistent in one direction only: a
result with no violations is always valid, and an invalid result always
carries at least one violation; but a valid result may carry violations
(exactly when a union rule fires with a failing alternative). -/
theorem claim_C1 (f : Nat) (self : Rules) (v : Value) (r : Rules) (p : List Seg)
    (res : VResult) (h : Schema.validate self f v r p = .ok res) :
    (res.2 = [] → res.1 = true) ∧ (res.1 = false → res.2 ≠ []) :=
  validate_PRes f self v r p res h

theorem claim_C1_witness :
    ((([] : List (List String × String)) = [] → true = true)
      ∧ (true = false → ([] : List (List String × String)) ≠ [])) :=
  claim_C1 2 Schema.base (.str "x") (Schema.isString Schema.base) [] (true, []) rfl

/-- The patch `{required: false}` of the builder's `isOptional`. -/
def optionalPatch : RulesPatch := { RulesPatch.empty with required := some false }

/-- C2 (counterexample): on a heap holding one all-defaults schema instance,
`setRules({required: false})` returns the *receiver itself* (address 0, not
a new instance), and the receiver's observable rule set has changed: its
`required` field is now `false` although the instance was built with `true`. -/
theorem claim_C2_counterexample :
    (Schema.setRules [defaultRules] 0 optionalPatch).2 = 0
      ∧ ((Schema.setRules [defaultRules] 0 optionalPatch).1.getD 0 defaultRules).required = false
      ∧ defaultRules.required = true :=
  ⟨rfl, rfl, rfl⟩

/-- C2 (amended): a builder operation on an existing instance mutates the
receiver in place — it replaces the receiver's rule record with a fresh
record equal to the old one merged with the new fields — and returns the
receiver itself; every other instance's rule set is left unchanged, so
distinct instances never share rule-record state. -/
theorem claim_C2 (h : List Rules) (a : Nat) (p : RulesPatch) (ha : a < h.length) :
    (Schema.setRules h a p).2 = a
      ∧ (Schema.setRules h a p).1.getD a defaultRules
          = mergePatch (h.getD a defaultRules) p
      ∧ ∀ b, b ≠ a → (Schema.setRules h a p).1.getD b defaultRules = h.getD b defaultRules := by
  refine ⟨rfl, ?_, fun b hb => ?_⟩
  · simp [Schema.setRules, List.getD, List.getElem?_set_self, ha]
  · simp [Schema.setRules, List.getD, List.getElem?_set_ne (fun hc => hb hc.symm)]

theorem claim_C2_witness :
    (Schema.setRules [defaultRules, defaultRules] 1 optionalPatch).2 = 1
      ∧ (Schema.setRules [defaultRules, defaultRules] 1 optionalPatch).1.getD 0 defaultRules
          = [defaultRules, defaultRules].getD 0 defaultRules :=
  ⟨(claim_C2 [defaultRules, defaultRules] 1 optionalPatch (by decide)).1,
   (claim_C2 [defaultRules, defaultRules] 1 optionalPatch (by decide)).2.2 0 (by decide)⟩

/-- The schema `object({id: isUUID, tags: array(isString)})`. -/
def c3Rules : Rules :=
  Schema.isObjectMembers Schema.base
    [("id", some (Schema.isUUID Schema.base)),
     ("tags", some (Schema.isArraySchema Schema.base (Schema.isString Schema.base)))]

/-- The value `{id: "not-a-uuid", tags: ["a", 1]}`. -/
def c3Input : Value :=
  .obj [("id", .str "not-a-uuid"), ("tags", .arr [.str "a", .num (.fin 1)])]

/-- C3: matching `{id: "not-a-uuid", tags: ["a", 1]}` against
`object({id: isUUID, tags: array(isString)})` does not return an invalid
verdict with two violations — it throws a `TypeError`: the failing item under
the array's value rule pushes the numeric index `1` into the path, and
building the violation calls `key.replace` on that number, which is not a
function.  (The index-style rendering the replace regex aims at can also
never fire, since it is applied to each path entry separately and an entry
never contains a dot followed by digits.) -/
theorem claim_C3 :
    Schema.validateTop c3Rules c3Input 8 = .error .typeError
      ∧ fixKey "1" = "1" := by
  exact ⟨rfl, rfl⟩

/-- A regular expression built by a caller, absent from the named-pattern
table (its identity tag 9 matches no table entry). -/
def customPattern : JRegExp := ⟨9, "^abc$", "", fun s => s == "abc"⟩

/-- C4: matching a failing string against a pattern that is not in the
named-pattern table does not produce a soft violation printing the pattern's
own text — the call throws: `patterns.find(...)` yields `undefined` and the
destructuring `const [key] = undefined` raises a `TypeError`. -/
theorem claim_C4 :
    patterns.find? (fun e => e.2.id == customPattern.id) = none
      ∧ customPattern.test "xyz" = false
      ∧ Schema.validateTop (Schema.matchesPattern Schema.base customPattern) (.str "xyz") 3
          = .error .typeError := by
  exact ⟨rfl, rfl, rfl⟩

/-- The nested union schema `Schema.isEither(Schema.isNumber)`. -/
def c5Nested : Rules := Schema.isEither Schema.base [Schema.isNumber Schema.base]

/-- C5 (counterexample): with A itself a union (`isEither(isNumber)`) and B
`isBoolean`, matching `"x"` against `isEither(A, B)` is *valid* — expanding
the outer union clears A's own union rule, leaving A's base string kind,
which `"x"` satisfies — although neither `match("x", A)` nor `match("x", B)`
is valid; so the union law fails for union-valued alternatives. -/
theorem claim_C5_counterexample :
    Schema.validateTop (Schema.isEither Schema.base [c5Nested, Schema.isBoolean Schema.base])
        (.str "x") 8 = .ok (true, [([], "is not a boolean.")])
      ∧ Schema.validateTop c5Nested (.str "x") 8 = .ok (false, [([], "is not a number")])
      ∧ Schema.validateTop (Schema.isBoolean Schema.base) (.str "x") 8
          = .ok (false, [([], "is not a boolean.")])
      ∧ (true : Bool) ≠ (false || false) := by
  exact ⟨rfl, rfl, rfl, by decide⟩

/-- C5 (amended): the union law holds for alternatives that are not
themselves unions (and are completely defined), on values that pass the
presence and nullability steps: `isEither(A, B)` is valid iff `match(v, A)`
or `match(v, B)` is, and its violation list is always the concatenation of
the two alternatives' lists — in particular of length `len + len` when both
are invalid. -/
theorem claim_C5 (A B : Rules) (v : Value) (f : Nat) (rab ra rb : VResult)
    (hA : A.union = []) (hB : B.union = [])
    (hdA : defTotal A = true) (hdB : defTotal B = true)
    (hu : JSVal.isUndefined v = false) (hn : JSVal.isNull v = false)
    (hab : Schema.validateTop (Schema.isEither Schema.base [A, B]) v (f + 1) = .ok rab)
    (ha : Schema.validateTop A v f = .ok ra)
    (hb : Schema.validateTop B v f = .ok rb) :
    rab.1 = (ra.1 || rb.1) ∧ rab.2 = ra.2 ++ rb.2 := by
  have hR : Schema.isEither Schema.base [A, B]
      = Rules.mk true false [] [] [A, B] "string" none none none none none none := rfl
  have hstep : Schema.validateTop (Schema.isEither Schema.base [A, B]) v (f + 1)
      = validateBody (Schema.validate (Schema.isEither Schema.base [A, B]) f)
          (Schema.isEither Schema.base [A, B]) v (Schema.isEither Schema.base [A, B]) [] := rfl
  rw [hstep] at hab
  unfold validateBody at hab
  rw [if_neg (by simp [hu])] at hab
  rw [if_neg (by simp [hn])] at hab
  rw [if_neg (by rw [hR]; simp [Rules.values])] at hab
  rw [if_pos (by rw [hR]; simp [Rules.union])] at hab
  have hmA : mergeForUnion (Schema.isEither Schema.base [A, B]) A = A := by
    rw [hR]
    cases A with
    | mk a2 b2 c2 d2 e2 t2 l2 pa2 i2 ra2 s2 pr2 =>
      simp only [Rules.union] at hA
      rw [mergeForUnion, hA]
      simp [ovr_none]
  have hmB : mergeForUnion (Schema.isEither Schema.base [A, B]) B = B := by
    rw [hR]
    cases B with
    | mk a2 b2 c2 d2 e2 t2 l2 pa2 i2 ra2 s2 pr2 =>
      simp only [Rules.union] at hB
      rw [mergeForUnion, hB]
      simp [ovr_none]
  have hcv : coerceValue (Schema.isEither Schema.base [A, B]) v = v := rfl
  have hgA : Schema.validate (Schema.isEither Schema.base [A, B]) f
      (coerceValue (Schema.isEither Schema.base [A, B]) v)
      (mergeForUnion (Schema.isEither Schema.base [A, B]) A) [] = .ok ra := by
    rw [hcv, hmA, validate_selfIrrel (Schema.isEither Schema.base [A, B]) A f v A [] hdA]
    exact ha
  have hgB : Schema.validate (Schema.isEither Schema.base [A, B]) f
      (coerceValue (Schema.isEither Schema.base [A, B]) v)
      (mergeForUnion (Schema.isEither Schema.base [A, B]) B) [] = .ok rb := by
    rw [hcv, hmB, validate_selfIrrel (Schema.isEither Schema.base [A, B]) B f v B [] hdB]
    exact hb
  rw [show (Schema.isEither Schema.base [A, B]).union = [A, B] from rfl] at hab
  rw [mapEx_cons] at hab
  rw [hgA] at hab
  rw [show mapEx (fun u => Schema.validate (Schema.isEither Schema.base [A, B]) f
      (coerceValue (Schema.isEither Schema.base [A, B]) v)
      (mergeForUnion (Schema.isEither Schema.base [A, B]) u) []) [B]
      = (Schema.validate (Schema.isEither Schema.base [A, B]) f
          (coerceValue (Schema.isEither Schema.base [A, B]) v)
          (mergeForUnion (Schema.isEither Schema.base [A, B]) B) []).bind
          (fun b2 => .ok [b2]) from by rw [mapEx_cons]; rfl] at hab
  rw [hgB] at hab
  simp only [Except.bind, Except.ok.injEq] at hab
  rw [← hab]
  simp [unionFold]

theorem defTotal_flat (a b : Bool) (c : List (Value → Value)) (d : List Value)
    (t : String) (l : Option (Sum JNum (JNum × JNum))) (pa : Option JRegExp)
    (i : Option Bool) (ra : Option (Value × Value)) (s : Option (Sum JNum (JNum × JNum))) :
    defTotal (.mk a b c d [] t l pa i ra s none) = true := by
  unfold defTotal
  simp [defTotalList]

theorem claim_C5_witness :
    ((false : Bool) = (false || false)
      ∧ ([([], "is not a number"), ([], "is not a boolean.")] : List (List String × String))
          = [([], "is not a number")] ++ [([], "is not a boolean.")]) :=
  claim_C5 (Schema.isNumber Schema.base) (Schema.isBoolean Schema.base) (.str "x") 4
    (false, [([], "is not a number"), ([], "is not a boolean.")])
    (false, [([], "is not a number")]) (false, [([], "is not a boolean.")])
    rfl rfl (defTotal_flat _ _ _ _ _ _ _ _ _ _) (defTotal_flat _ _ _ _ _ _ _ _ _ _)
    rfl rfl rfl rfl rfl

/-- C6: the matcher is deterministic and pure: its verdict and violation
list are a function of the value, the rule set and the path alone — any two
runs that return (at any recursion budgets) return the same result.  (The
embedding is a pure function of these inputs, mirroring a source that never
writes to the rule records it reads; the budget is the only artifact, and it
does not influence returned results.) -/
theorem claim_C6 (self : Rules) (v : Value) (r : Rules) (p : List Seg)
    (f1 f2 : Nat) (r1 r2 : VResult)
    (h1 : Schema.validate self f1 v r p = .ok r1)
    (h2 : Schema.validate self f2 v r p = .ok r2) : r1 = r2 := by
  rcases Nat.le_total f1 f2 with hle | hle
  · exact Except.ok.inj ((validate_mono_le hle h1).symm.trans h2)
  · exact Except.ok.inj (h1.symm.trans (validate_mono_le hle h2))

theorem claim_C6_witness : ((true, []) : VResult) = ((true, []) : VResult) :=
  claim_C6 Schema.base (.str "a") Schema.base [] 1 2 (true, []) (true, []) rfl rfl

/-- C7: for `object(members)` — named members, no key rule, no value rule —
matching a plain object owning a key that is not named in `members` returns
invalid with the single "contains unspecified properties." violation and
performs no further structural checks on the node; while an object whose
keys are all named is not rejected for that reason: the node's result is
exactly the fold of the named members' recursive matches. -/
theorem claim_C7 (M : List (String × Rules)) (oe : List (String × Value)) (f : Nat) :
    (oe.all (fun e => M.any (fun m => m.1 == e.1)) = false →
      Schema.validateTop
        (Schema.isObjectMembers Schema.base (M.map (fun m => (m.1, some m.2))))
        (.obj oe) (f + 1)
        = .ok (false, [([], "contains unspecified properties.")]))
  ∧ (oe.all (fun e => M.any (fun m => m.1 == e.1)) = true →
      Schema.validateTop
        (Schema.isObjectMembers Schema.base (M.map (fun m => (m.1, some m.2))))
        (.obj oe) (f + 1)
        = (mapEx (fun m => Schema.validate
              (Schema.isObjectMembers Schema.base (M.map (fun m2 => (m2.1, some m2.2))))
              f (objGet oe m.1) m.2 ([] ++ [Seg.str m.1])) M).bind
            (fun rs => .ok (finishNode rs))) := by
  have hfun : (fun (e : String × Value) =>
        (M.map (fun m => (m.1, some m.2))).any (fun m => m.1 == e.1))
      = (fun (e : String × Value) => M.any (fun m => m.1 == e.1)) := by
    funext e
    induction M with
    | nil => rfl
    | cons x tl ih => simp only [List.map_cons, List.any_cons, ih]
  have hstep : Schema.validateTop
      (Schema.isObjectMembers Schema.base (M.map (fun m => (m.1, some m.2))))
      (.obj oe) (f + 1)
      = checkObject
          (Schema.validate
            (Schema.isObjectMembers Schema.base (M.map (fun m => (m.1, some m.2)))) f)
          (Schema.isObjectMembers Schema.base (M.map (fun m => (m.1, some m.2))))
          (Props.mk (M.map (fun m => (m.1, some m.2))) none none) oe [] := rfl
  constructor
  · intro hcond
    rw [hstep]
    unfold checkObject
    rw [if_pos (by
      simp only [Props.keys, Props.vals, Props.entries, Option.isNone_none,
        Bool.and_true, Bool.true_and, hfun, hcond]
      rfl)]
    rfl
  · intro hcond
    rw [hstep]
    unfold checkObject
    rw [if_neg (by
      simp only [Props.keys, Props.vals, Props.entries, Option.isNone_none,
        Bool.and_true, Bool.true_and, hfun, hcond]
      simp)]
    have hm : mapEx (fun (m : String × Option Rules) =>
          Schema.validate
            (Schema.isObjectMembers Schema.base (M.map (fun m2 => (m2.1, some m2.2)))) f
            (objGet oe m.1) (m.2.getD
              (Schema.isObjectMembers Schema.base (M.map (fun m2 => (m2.1, some m2.2)))))
            ([] ++ [Seg.str m.1]))
          ((Props.mk (M.map (fun m => (m.1, some m.2))) none none).entries)
        = mapEx (fun (m : String × Rules) =>
            Schema.validate
              (Schema.isObjectMembers Schema.base (M.map (fun m2 => (m2.1, some m2.2)))) f
              (objGet oe m.1) m.2 ([] ++ [Seg.str m.1])) M := by
      rw [show (Props.mk (M.map (fun m => (m.1, some m.2))) none none).entries
          = M.map (fun m => (m.1, some m.2)) from rfl]
      rw [mapEx_map]
      rfl
    rw [hm]
    congr 1
    funext named
    simp [Props.keys, Props.vals, Except.bind]

theorem claim_C7_witness :
    Schema.validateTop
        (Schema.isObjectMembers Schema.base [("a", some (Schema.isString Schema.base))])
        (.obj [("a", .str "x"), ("b", .num (.fin 1))]) 3
        = .ok (false, [([], "contains unspecified properties.")])
      ∧ Schema.validateTop
          (Schema.isObjectMembers Schema.base [("a", some (Schema.isString Schema.base))])
          (.obj [("a", .str "x")]) 3
          = (mapEx (fun m => Schema.validate
                (Schema.isObjectMembers Schema.base [("a", some (Schema.isString Schema.base))])
                2 (objGet [("a", .str "x")] m.1) m.2 ([] ++ [Seg.str m.1]))
              [("a", Schema.isString Schema.base)]).bind (fun rs => .ok (finishNode rs)) :=
  ⟨(claim_C7 [("a", Schema.isString Schema.base)]
      [("a", .str "x"), ("b", .num (.fin 1))] 2).1 rfl,
   (claim_C7 [("a", Schema.isString Schema.base)] [("a", .str "x")] 2).2 rfl⟩

/-- The rule record `{...defaults, type: "unknown"}`, as produced by
`setRules({type: "unknown"})` on a fresh instance. -/
def unknownKindRules : Rules :=
  .mk true false [] [] [] "unknown" none none none none none none

theorem rulesToValue_unknownKind : rulesToValue unknownKindRules
    = .obj [("required", .bool true), ("null", .bool false), ("coerce", .arr []),
            ("values", .arr []), ("union", .arr []), ("type", .str "unknown")] := by
  simp [rulesToValue, unionToValues, unknownKindRules]

/-- C8: the integrity check on a rule record whose kind is the unrecognized
literal `"unknown"` returns (not raises) invalid, and its violation list
contains a violation at the `type` field saying the value does not equal any
allowed literal of the closed seven-kind set.  (The full violation list also
records the always-failing `coerce`, `values` and `union` members of the
meta-schema.) -/
theorem claim_C8 :
    Schema.check unknownKindRules 6
        = .ok (false, [(["coerce"], "is not an object."),
                       (["values"], "has fewer than 1 items."),
                       (["union"], "has fewer than 2 items."),
                       (["type"], "does not equal any required value.")])
      ∧ (["type"], "does not equal any required value.")
          ∈ [(["coerce"], "is not an object."),
             (["values"], "has fewer than 1 items."),
             (["union"], "has fewer than 2 items."),
             (["type"], "does not equal any required value.")] := by
  constructor
  · simp only [Schema.check, rulesToValue_unknownKind]
    rfl
  · simp

theorem rulesToValue_default : rulesToValue defaultRules
    = .obj [("required", .bool true), ("null", .bool false), ("coerce", .arr []),
            ("values", .arr []), ("union", .arr []), ("type", .str "string")] := by
  simp [rulesToValue, unionToValues, defaultRules]

/-- C9: the integrity check rejects every schema that leaves `values`
(`equalsAnyOf`) and `union` (`unionOf`) at their empty defaults.  On the
freshly constructed all-defaults record — which is also the record of the
ordinary `isString` schema — it returns invalid, with the meta-schema's
`values`-needs-at-least-1 and `union`-needs-at-least-2 violations (preceded
by the `coerce` violation that the meta-schema's own `coerce: µ.isArray`
slip produces on every record); and in general any record with both lists
empty is rejected. -/
theorem claim_C9 :
    Schema.check defaultRules 6
        = .ok (false, [(["coerce"], "is not an object."),
                       (["values"], "has fewer than 1 items."),
                       (["union"], "has fewer than 2 items.")])
      ∧ Schema.isString Schema.base = defaultRules
      ∧ (∀ (r : Rules) (f : Nat) (res : VResult), r.values = [] → r.union = [] →
          Schema.check r f = .ok res → res.1 = false) := by
  refine ⟨?_, rfl, fun r f res hv _ h => check_values_empty hv f res h⟩
  simp only [Schema.check, rulesToValue_default]
  rfl

theorem claim_C9_witness :
    (((false, [(["coerce"], "is not an object."),
               (["values"], "has fewer than 1 items."),
               (["union"], "has fewer than 2 items.")]) : VResult)).1 = false :=
  claim_C9.2.2 (Schema.isString Schema.base) 6
    (false, [(["coerce"], "is not an object."),
             (["values"], "has fewer than 1 items."),
             (["union"], "has fewer than 2 items.")])
    rfl rfl
    (by simp only [Schema.check, show rulesToValue (Schema.isString Schema.base)
          = .obj [("required", .bool true), ("null", .bool false), ("coerce", .arr []),
                  ("values", .arr []), ("union", .arr []), ("type", .str "string")] from
          rulesToValue_default]
        rfl)

theorem jnLt_nan_left (m : JNum) : jnLt .nan m = false := by
  cases m <;> rfl

theorem jnLt_nan_right (m : JNum) : jnLt m .nan = false := by
  cases m with
  | nan => rfl
  | inf b => cases b <;> rfl
  | fin q => rfl

/-- C10: the number kind accepts non-finite values.  `NaN`, `Infinity` and
`-Infinity` pass the number type check; all three pass the integer-only
check, because `value % 1` is `NaN` there, which is falsy; and `NaN` passes
*any* `valueRange` bounds, because every comparison against `NaN` is false —
in particular, validating `NaN` against `isInteger.isBetween(0, 10)` returns
valid with no violations. -/
theorem claim_C10 :
    JSVal.isNumber (.num .nan) = true
      ∧ JSVal.isNumber (.num (.inf true)) = true
      ∧ JSVal.isNumber (.num (.inf false)) = true
      ∧ modOneTruthy .nan = false
      ∧ modOneTruthy (.inf true) = false
      ∧ modOneTruthy (.inf false) = false
      ∧ Schema.validateTop (Schema.isInteger Schema.base) (.num (.inf true)) 3 = .ok (true, [])
      ∧ Schema.validateTop (Schema.isInteger Schema.base) (.num (.inf false)) 3 = .ok (true, [])
      ∧ (∀ (mn mx : Value) (f : Nat),
          Schema.validateTop (Schema.isBetween (Schema.isInteger Schema.base) mn mx)
            (.num .nan) (f + 1) = .ok (true, []))
      ∧ Schema.validateTop
          (Schema.isBetween (Schema.isInteger Schema.base) (.num (.fin 0)) (.num (.fin 10)))
          (.num .nan) 3 = .ok (true, []) := by
  refine ⟨rfl, rfl, rfl, rfl, rfl, rfl, rfl, rfl, ?_, rfl⟩
  intro mn mx f
  have hstep : Schema.validateTop (Schema.isBetween (Schema.isInteger Schema.base) mn mx)
      (.num .nan) (f + 1)
      = checkNumber [] (Schema.isBetween (Schema.isInteger Schema.base) mn mx) .nan := rfl
  rw [hstep]
  unfold checkNumber
  rw [if_neg (by simp [modOneTruthy])]
  simp only [show (Schema.isBetween (Schema.isInteger Schema.base) mn mx).range
    = some (mn, mx) from rfl]
  rw [if_neg (by cases mn <;> simp [jnLt_nan_left]),
    if_neg (by cases mx <;> simp [jnLt_nan_right])]
